import Mathlib

/-
Verification of the InsightAgent analytical pipeline: a shallow embedding of
the column resolver (`column_identifier.py`), the metric deriver
(`metrics.py`), the rule engine (`insight_rules.py`) and the request
validation boundary (`schemas.py`, `engine.py`), together with theorems
settling the specification claims.

Modelling conventions:
* Python floats are modelled exactly by `PFloat`: a finite rational, a signed
  infinity, or the not-a-number sentinel.  Arithmetic on finite values is
  exact rational arithmetic (IEEE-754 rounding and overflow are outside the
  model); float literals such as `0.015` are modelled by the decimal rational
  they denote.
* Python scalar values flowing through the pipeline are modelled by `PyVal`
  (a number or a string).  `Option PyVal` models a dictionary slot: `none`
  covers both a missing key and a stored `None`, which the pipeline never
  distinguishes (every read of such a slot is `dict.get`, whose default is
  `None`).
* Python dictionaries with string keys are modelled as functions
  `String → Option _` built by successive updates, mirroring the mutation
  order of the source.
-/

set_option maxRecDepth 10000

namespace InsightAgent

/-- Model of a CPython `float` value: not-a-number, a signed infinity
(`inf true` is `+inf`), or a finite value, represented exactly as a
rational. -/
inductive PFloat where
  | nan : PFloat
  | inf : Bool → PFloat
  | fin : ℚ → PFloat
deriving DecidableEq, Repr

/-- Model of a Python scalar stored in a record or derived-metric dictionary:
a number (`int`/`float`) or a string.  `None`/absent is modelled by
`Option.none` at the use site. -/
inductive PyVal where
  | pnum : PFloat → PyVal
  | pstr : String → PyVal
deriving DecidableEq, Repr

/-- Python whitespace characters stripped by `str.strip()` and matched by the
regex class `\s` (ASCII fragment; the full Unicode whitespace set only
differs on exotic codepoints that the claims never touch). -/
def isPyWs (c : Char) : Bool :=
  c.toNat = 32 || c.toNat = 9 || c.toNat = 10 || c.toNat = 13 || c.toNat = 11 || c.toNat = 12

/-- Lowercase ASCII letter or ASCII digit: the character class `[a-z0-9]`
of `_normalize`. -/
def isLowerAlnum (c : Char) : Bool :=
  (97 ≤ c.toNat && c.toNat ≤ 122) || (48 ≤ c.toNat && c.toNat ≤ 57)

/-- Per-character model of `str.lower()`: uppercase ASCII letters are
lowercased, everything else is unchanged.  (Unicode case mapping differs
only on codepoints outside `[a-z0-9]`, which `_normalize` sends to a space
either way.) -/
def pyLowerChar (c : Char) : Char :=
  if 65 ≤ c.toNat && c.toNat ≤ 90 then Char.ofNat (c.toNat + 32) else c

/-- Drop leading characters satisfying `p` from both ends: model of
`str.strip()` (with `p := isPyWs`). -/
def stripBy (p : Char → Bool) (l : List Char) : List Char :=
  ((l.dropWhile p).reverse.dropWhile p).reverse

/-- Collapse every run of two or more consecutive spaces to a single space.
Composed with a character-wise map to space, this models the regex
substitutions of `_normalize` (a run of matched characters becomes one
space). -/
def collapse : List Char → List Char
  | [] => []
  | [a] => [a]
  | a :: b :: rest =>
    if a = ' ' && b = ' ' then collapse (b :: rest)
    else a :: collapse (b :: rest)

/-- Model of `_normalize` from `column_identifier.py`:
`re.sub(r"\s+", " ", re.sub(r"[^a-z0-9]+", " ", label.strip().lower())).strip()`.
Each regex substitution is modelled as a character-wise map to a space
followed by `collapse`. -/
def normalizeL (l : List Char) : List Char :=
  stripBy isPyWs
    (collapse
      ((collapse
        (((stripBy isPyWs l).map pyLowerChar).map
          (fun c => if isLowerAlnum c then c else ' '))).map
        (fun c => if isPyWs c then ' ' else c)))

/-- String-level wrapper of `normalizeL`. -/
def normalize (s : String) : String := ⟨normalizeL s.data⟩

/-- Value of a list of ASCII digit characters read in base 10. -/
def digitsToNat (ds : List Char) : Nat :=
  ds.foldl (fun a c => a * 10 + (c.toNat - 48)) 0

/-- Power of ten as a rational. -/
def pow10 (n : Nat) : ℚ := ((10 ^ n : ℕ) : ℚ)

def isDigit (c : Char) : Bool := 48 ≤ c.toNat && c.toNat ≤ 57

/-- Parse the mantissa-and-exponent body of a CPython float literal:
`digits [. digits] [eE [+-] digits]` where at least one mantissa digit is
required.  Returns the denoted rational. -/
def parseMantissa (l : List Char) : Option ℚ :=
  let ipart := l.takeWhile isDigit
  let rest := l.dropWhile isDigit
  let (fpart, rest2) :=
    match rest with
    | '.' :: r => (r.takeWhile isDigit, r.dropWhile isDigit)
    | _ => ([], rest)
  if ipart.isEmpty && fpart.isEmpty then none
  else
    let mant : ℚ := (digitsToNat ipart : ℚ) + (digitsToNat fpart : ℚ) / pow10 fpart.length
    match rest2 with
    | [] => some mant
    | e :: r3 =>
      if e = 'e' || e = 'E' then
        let (eneg, r4) :=
          match r3 with
          | '+' :: r => (false, r)
          | '-' :: r => (true, r)
          | _ => (false, r3)
        if r4.isEmpty || !(r4.all isDigit) then none
        else some (if eneg then mant / pow10 (digitsToNat r4) else mant * pow10 (digitsToNat r4))
      else none

/-- Model of CPython `float(str)`: optional surrounding whitespace, optional
sign, then either a decimal literal or the keywords `inf`/`infinity`/`nan`
(case-insensitive).  Returns `none` when CPython would raise `ValueError`.
(Underscore digit separators and non-ASCII decimal digits, which CPython
also accepts, are outside the model; no claim touches them.) -/
def pyParseFloat (s : String) : Option PFloat :=
  let t := stripBy isPyWs s.data
  let (neg, body) :=
    match t with
    | '+' :: r => (false, r)
    | '-' :: r => (true, r)
    | _ => (false, t)
  let lowBody := body.map pyLowerChar
  if lowBody = ['i', 'n', 'f'] || lowBody = ['i', 'n', 'f', 'i', 'n', 'i', 't', 'y'] then
    some (.inf (!neg))
  else if lowBody = ['n', 'a', 'n'] then
    some .nan
  else
    match parseMantissa body with
    | some q => some (.fin (if neg then -q else q))
    | none => none

/-- Model of `str.replace(" ", "")`: delete every space. -/
def stripSpaces (s : String) : String := ⟨s.data.filter (fun c => c ≠ ' ')⟩

/-- Model of `value.replace("%", "")` in `_to_float`: `str.replace` with an
empty replacement deletes every occurrence of the pattern, so every `%` is
removed, not only a trailing one. -/
def remPercent (s : String) : String := ⟨s.data.filter (fun c => c ≠ '%')⟩

/-- Model of `key.split()[0]` as used by `_find_best_match`: the first
whitespace-delimited token.  `none` models the `IndexError` CPython raises
when `key` has no token at all. -/
def firstWord (l : List Char) : Option (List Char) :=
  let t := l.dropWhile isPyWs
  if t.isEmpty then none else some (t.takeWhile (fun c => !isPyWs c))

/-- Model of `MetricCalculator._is_valid_number`: `float(value)` succeeds and
the result is finite.  `none` (absent key or stored `None`) raises
`TypeError` in CPython and is therefore invalid; a string is valid iff it
parses to a finite float; `nan` and the infinities are rejected by
`math.isfinite`. -/
def is_valid_number (v : Option PyVal) : Bool :=
  match v with
  | some (.pnum (.fin _)) => true
  | some (.pnum _) => false
  | some (.pstr s) =>
    match pyParseFloat s with
    | some (.fin _) => true
    | _ => false
  | none => false

/-- Model of `float(value)` at call sites guarded by `_is_valid_number`:
numbers pass through, strings are parsed.  The `.nan` fallbacks model
branches where CPython would raise and that every caller excludes by its
guard. -/
def pyToNum (v : Option PyVal) : PFloat :=
  match v with
  | some (.pnum x) => x
  | some (.pstr s) => (pyParseFloat s).getD .nan
  | none => .nan

/-- Combination of the `_is_valid_number(value)` guard and the subsequent
`float(value)` conversion: `some q` iff the value is numerically valid, with
`q` the converted finite value.  Used verbatim in the aggregation model; tied
to `is_valid_number`/`pyToNum` by `validNum_isSome` and `validNum_toNum`. -/
def validNum (v : Option PyVal) : Option ℚ :=
  match v with
  | some (.pnum (.fin q)) => some q
  | some (.pstr s) =>
    match pyParseFloat s with
    | some (.fin q) => some q
    | _ => none
  | _ => none

/-- Model of `MetricCalculator._to_float`: numeric values pass through,
strings are parsed after deleting every `%` (a parse failure yields `nan`),
anything else (including `None`) yields `nan`. -/
def to_float (v : Option PyVal) : PFloat :=
  match v with
  | some (.pnum x) => x
  | some (.pstr s) => (pyParseFloat (remPercent s)).getD .nan
  | none => .nan

/-- Model of `schemas.ColumnMapping`: one optional header per canonical
metric, in the declaration order of the pydantic model. -/
structure ColumnMapping where
  campaign_name : Option String := none
  ad_set_name : Option String := none
  ad_name : Option String := none
  ad_id : Option String := none
  spend : Option String := none
  impressions : Option String := none
  clicks : Option String := none
  ctr : Option String := none
  frequency : Option String := none
  roas : Option String := none
  purchases : Option String := none
  purchase_value : Option String := none
  adds_to_cart : Option String := none
  ctr_7d : Option String := none
  ctr_prev7 : Option String := none
  status : Option String := none
deriving DecidableEq, Repr

/-- Model of `ColumnMapping.resolve`: field access by canonical name
(`getattr(self, canonical, None)`), written as an explicit switch. -/
def ColumnMapping.resolve (m : ColumnMapping) (canonical : String) : Option String :=
  match canonical with
  | "campaign_name" => m.campaign_name
  | "ad_set_name" => m.ad_set_name
  | "ad_name" => m.ad_name
  | "ad_id" => m.ad_id
  | "spend" => m.spend
  | "impressions" => m.impressions
  | "clicks" => m.clicks
  | "ctr" => m.ctr
  | "frequency" => m.frequency
  | "roas" => m.roas
  | "purchases" => m.purchases
  | "purchase_value" => m.purchase_value
  | "adds_to_cart" => m.adds_to_cart
  | "ctr_7d" => m.ctr_7d
  | "ctr_prev7" => m.ctr_prev7
  | "status" => m.status
  | _ => none

/-- The canonical metric vocabulary of `schemas.CANONICAL_COLUMNS`, in
dictionary insertion order, with the synonym tuples. -/
def CANONICAL_COLUMNS : List (String × List String) :=
  [("campaign_name", ["campaign name", "campaign"]),
   ("ad_set_name", ["ad set name", "adset", "ad set"]),
   ("ad_name", ["ad name", "ad"]),
   ("ad_id", ["ad id", "creative id", "asset id"]),
   ("spend", ["spend", "cost"]),
   ("impressions", ["impressions", "impr"]),
   ("clicks", ["clicks", "link clicks"]),
   ("ctr", ["ctr", "click through rate", "ctr %"]),
   ("frequency", ["frequency"]),
   ("roas", ["roas", "return on ad spend"]),
   ("purchases", ["purchases", "purchase"]),
   ("purchase_value", ["purchase value", "purchase revenue", "revenue"]),
   ("adds_to_cart", ["adds to cart", "atc"]),
   ("ctr_7d", ["ctr 7d", "ctr last 7"]),
   ("ctr_prev7", ["ctr prev7", "ctr previous 7"]),
   ("status", ["status"])]

/-- Synonym list of a canonical metric. -/
def synonymsOf (canonical : String) : List String :=
  (CANONICAL_COLUMNS.lookup canonical).getD []

/-- Model of `ColumnMapping.available_metrics`: the canonical names whose
mapped header is truthy (present and not the empty string), in field
declaration order (= `model_dump` order). -/
def ColumnMapping.available_metrics (m : ColumnMapping) : List String :=
  (CANONICAL_COLUMNS.map Prod.fst).filter (fun canonical =>
    match m.resolve canonical with
    | some h => h ≠ ""
    | none => false)

/-- Model of `_find_best_match`.  The first pass returns the first header (in
caller-supplied order) whose normalized form equals a normalized target, or
equals one after deleting every space; the second pass returns the first
header whose normalized form starts with the normalized first token of
`key`.  The `none` in the tokenless branch models the `IndexError` CPython
raises there (`key.split()[0]` on a token-free key); no guarded caller
reaches it. -/
def find_best_match (key : String) (cols : List String)
    (fallback_candidates : Option (List String)) : Option String :=
  let normalized_targets : List String :=
    match fallback_candidates with
    | some cands => cands.map normalize
    | none => [normalize key]
  match cols.find? (fun col =>
      normalized_targets.contains (normalize col)
      || (normalized_targets.map stripSpaces).contains (stripSpaces (normalize col))) with
  | some col => some col
  | none =>
    match firstWord key.data with
    | some tok => cols.find? (fun col => (normalize ⟨tok⟩).isPrefixOf (normalize col))
    | none => none

/-- Model of the per-canonical body of the auto-match loop of
`SemanticColumnIdentifier.__call__`: first header whose normalized form is a
raw candidate (synonyms plus the canonical name), or matches one after
deleting spaces; otherwise `_find_best_match` with the candidates as
fallback. -/
def auto_match (canonical : String) (synonyms : List String) (cols : List String) : Option String :=
  let candidates := synonyms ++ [canonical]
  match cols.find? (fun col =>
      candidates.contains (normalize col)
      || (candidates.map stripSpaces).contains (stripSpaces (normalize col))) with
  | some col => some col
  | none => find_best_match canonical cols (some candidates)

/-- Per-canonical combination of the hint phase and the auto-match phase of
`SemanticColumnIdentifier.__call__`.  The two source loops write each
canonical slot independently of the others, so the mapping is the per-slot
composition: verbatim hint, else relaxed hint match, and the auto-match
phase whenever the slot is still falsy (unset, or set to the empty-string
header, which Python treats as falsy). -/
def resolve_one (hints : List (String × String)) (cols : List String)
    (canonical : String) (synonyms : List String) : Option String :=
  let hinted : Option String :=
    match hints.lookup canonical with
    | some hinted_column =>
      if cols.contains hinted_column then some hinted_column
      else find_best_match (normalize hinted_column) cols none
    | none => none
  match hinted with
  | some target => if target = "" then auto_match canonical synonyms cols else some target
  | none => auto_match canonical synonyms cols

/-- Model of `SemanticColumnIdentifier.__call__`: resolve every canonical
metric against the headers (in caller-supplied order) and the hints. -/
def identify_columns (cols : List String) (hints : List (String × String)) : ColumnMapping :=
  { campaign_name := resolve_one hints cols "campaign_name" (synonymsOf "campaign_name")
    ad_set_name := resolve_one hints cols "ad_set_name" (synonymsOf "ad_set_name")
    ad_name := resolve_one hints cols "ad_name" (synonymsOf "ad_name")
    ad_id := resolve_one hints cols "ad_id" (synonymsOf "ad_id")
    spend := resolve_one hints cols "spend" (synonymsOf "spend")
    impressions := resolve_one hints cols "impressions" (synonymsOf "impressions")
    clicks := resolve_one hints cols "clicks" (synonymsOf "clicks")
    ctr := resolve_one hints cols "ctr" (synonymsOf "ctr")
    frequency := resolve_one hints cols "frequency" (synonymsOf "frequency")
    roas := resolve_one hints cols "roas" (synonymsOf "roas")
    purchases := resolve_one hints cols "purchases" (synonymsOf "purchases")
    purchase_value := resolve_one hints cols "purchase_value" (synonymsOf "purchase_value")
    adds_to_cart := resolve_one hints cols "adds_to_cart" (synonymsOf "adds_to_cart")
    ctr_7d := resolve_one hints cols "ctr_7d" (synonymsOf "ctr_7d")
    ctr_prev7 := resolve_one hints cols "ctr_prev7" (synonymsOf "ctr_prev7")
    status := resolve_one hints cols "status" (synonymsOf "status") }

/-- A derived-metric row: canonical metric name to stored value.  `none`
covers both a missing key and a stored `None` (indistinguishable to every
consumer, which reads via `dict.get`). -/
abbrev Row : Type := String → Option PyVal

/-- Dictionary update `metrics[k] = v`. -/
def rowInsert (row : Row) (k : String) (v : Option PyVal) : Row :=
  fun k2 => if k2 = k then v else row k2

/-- The designated numeric canonical fields of
`MetricCalculator._numeric_fields`. -/
def numeric_fields : List String :=
  ["spend", "impressions", "clicks", "ctr", "frequency", "roas", "purchases",
   "purchase_value", "adds_to_cart", "ctr_7d", "ctr_prev7"]

/-- One iteration of the coercion loop of
`MetricCalculator._derive_row_metrics`: read the raw value through the
mapped header and store it, coerced with `_to_float` when the canonical
metric is numeric, unmodified otherwise.  (The `none` guard mirrors the
defensive `if column is None: continue`, unreachable for available
metrics.) -/
def base_step (record : String → Option PyVal) (m : ColumnMapping) (row : Row)
    (canonical : String) : Row :=
  match m.resolve canonical with
  | none => row
  | some column =>
    let value := record column
    if numeric_fields.contains canonical then
      rowInsert row canonical (some (.pnum (to_float value)))
    else
      rowInsert row canonical value

/-- Model of the first loop of `MetricCalculator._derive_row_metrics`. -/
def derive_base (record : String → Option PyVal) (m : ColumnMapping) : Row :=
  m.available_metrics.foldl (base_step record m) (fun _ => none)

/-- Division of two finite floats.  Every call site guards both operands to
be valid (hence finite) and the denominator to be nonzero, so only the
finite case is reachable; the rational quotient is exact (IEEE rounding and
overflow are outside the model). -/
def pfDiv : PFloat → PFloat → PFloat
  | .fin a, .fin b => .fin (a / b)
  | _, _ => .nan

/-- Model of `MetricCalculator._compute_ctr`. -/
def compute_ctr (metrics : Row) : PFloat :=
  let value := metrics "ctr"
  if is_valid_number value then pyToNum value
  else
    let clicks := metrics "clicks"
    let impressions := metrics "impressions"
    if !is_valid_number clicks || !is_valid_number impressions then .nan
    else if pyToNum impressions = .fin 0 then .nan
    else pfDiv (pyToNum clicks) (pyToNum impressions)

/-- Model of `MetricCalculator._compute_ratio`. -/
def compute_ratio (numerator denominator : Option PyVal) : PFloat :=
  if !is_valid_number numerator || !is_valid_number denominator then .nan
  else if pyToNum denominator = .fin 0 then .nan
  else pfDiv (pyToNum numerator) (pyToNum denominator)

/-- Model of `MetricCalculator._compute_ctr_delta`.  The two `.nan` fallback
arms are unreachable (a valid value converts to a finite float). -/
def compute_ctr_delta (metrics : Row) : PFloat :=
  let current := if is_valid_number (metrics "ctr_7d") then metrics "ctr_7d" else metrics "ctr"
  let previous := metrics "ctr_prev7"
  if !is_valid_number current || !is_valid_number previous then .nan
  else
    match pyToNum previous with
    | .fin prev_value =>
      if prev_value = 0 then .nan
      else
        match pyToNum current with
        | .fin c => .fin ((c - prev_value) / prev_value)
        | _ => .nan
    | _ => .nan

/-- Model of the full body of `MetricCalculator._derive_row_metrics` for one
record: the coercion loop, then the three synthetic metrics in source order
(`ctr` first, so that `_compute_ctr_delta` reads the synthetic `ctr`). -/
def derive_row (record : String → Option PyVal) (m : ColumnMapping) : Row :=
  let metrics := derive_base record m
  let metrics1 := rowInsert metrics "ctr" (some (.pnum (compute_ctr metrics)))
  let metrics2 := rowInsert metrics1 "atc_to_purchase"
    (some (.pnum (compute_ratio (metrics1 "purchases") (metrics1 "adds_to_cart"))))
  rowInsert metrics2 "ctr_delta" (some (.pnum (compute_ctr_delta metrics2)))

/-- The six summed fields of `MetricCalculator._aggregate`. -/
def total_fields : List String :=
  ["spend", "impressions", "clicks", "purchases", "purchase_value", "adds_to_cart"]

/-- The seven averaged fields of `MetricCalculator._aggregate`. -/
def avg_fields : List String :=
  ["ctr", "frequency", "roas", "atc_to_purchase", "ctr_7d", "ctr_prev7", "ctr_delta"]

/-- The two mutable dictionaries of `MetricCalculator._aggregate` (`sums` and
`counts`), modelled as functions; an absent key is `none` / count `0`. -/
structure AggState where
  sums : String → Option ℚ
  counts : String → Nat

/-- Dictionary update `sums[k] = v`. -/
def dictInsert (d : String → Option ℚ) (k : String) (v : ℚ) : String → Option ℚ :=
  fun k2 => if k2 = k then some v else d k2

/-- Dictionary update `counts[k] = counts.get(k, 0) + 1`. -/
def countInc (c : String → Nat) (k : String) : String → Nat :=
  fun k2 => if k2 = k then c k2 + 1 else c k2

/-- One iteration of the totals loop of `_aggregate`:
`sums["total_" + metric] = sums.get(..., 0.0) + float(value)` when the row
value is valid. -/
def total_step (row : Row) (sums : String → Option ℚ) (metric : String) : String → Option ℚ :=
  match validNum (row metric) with
  | some q => dictInsert sums ("total_" ++ metric) ((sums ("total_" ++ metric)).getD 0 + q)
  | none => sums

/-- One iteration of the averages loop of `_aggregate`: accumulate the sum
and increment the count when the row value is valid. -/
def avg_step (row : Row) (st : AggState) (metric : String) : AggState :=
  match validNum (row metric) with
  | some q =>
    { sums := dictInsert st.sums ("avg_" ++ metric) ((st.sums ("avg_" ++ metric)).getD 0 + q)
      counts := countInc st.counts ("avg_" ++ metric) }
  | none => st

/-- One iteration of the row loop of `_aggregate`: the totals loop, then the
averages loop. -/
def row_step (st : AggState) (row : Row) : AggState :=
  avg_fields.foldl (avg_step row) ⟨total_fields.foldl (total_step row) st.sums, st.counts⟩

/-- Model of `MetricCalculator._aggregate`: accumulate over all rows, then
divide each counted key by its count (the final
`for key, count in counts.items(): sums[key] = sums[key] / count` loop; a
counted key always carries a sum, so the `none` arm under a positive count
is unreachable). -/
def aggregate (rows : List Row) : String → Option ℚ :=
  let st := rows.foldl row_step ⟨fun _ => none, fun _ => 0⟩
  fun key =>
    match st.counts key with
    | 0 => st.sums key
    | n + 1 =>
      match st.sums key with
      | some total => some (total / ((n : ℚ) + 1))
      | none => none

/-- Model of `metrics.MetricSummary`. -/
structure MetricSummary where
  column_mapping : ColumnMapping
  per_row : List Row
  aggregates : String → Option ℚ

/-- One offender record of `_SpendZeroPurchasesRule.build_insight`:
`row.get` with default `0.0` for the numeric slots, default `None` for the
identifier slots. -/
structure OffenderEntry where
  spend : PyVal
  purchases : PyVal
  campaign_name : Option PyVal
  ad_name : Option PyVal
deriving DecidableEq, Repr

/-- Supporting evidence attached to an insight: a float aggregate or the
offender list of the spend rule. -/
inductive MetricVal where
  | num : ℚ → MetricVal
  | offenders : List OffenderEntry → MetricVal
deriving DecidableEq, Repr

/-- Model of `schemas.Insight`. -/
structure Insight where
  code : String
  label : String
  severity : String
  action : String
  rationale : String
  metrics : List (String × MetricVal)
deriving DecidableEq, Repr

/-- Python truthiness of a value read from a row: `None` (or an absent key)
and `0.0` and the empty string are falsy; `nan`, the infinities, every other
float and every other string are truthy. -/
def pyTruthy (v : Option PyVal) : Bool :=
  match v with
  | some (.pnum (.fin q)) => q ≠ 0
  | some (.pnum _) => true
  | some (.pstr s) => s ≠ ""
  | none => false

/-- Python truthiness of an aggregate float (`ctr and ...`,
`frequency and ...`): absent or `0.0` is falsy. -/
def aggTruthy (v : Option ℚ) : Bool :=
  match v with
  | some q => q ≠ 0
  | none => false

/-- Model of `_RoasOneToTwoRule.applies`:
`roas is not None and 1.0 <= roas <= 2.0`. -/
def roas_applies (s : MetricSummary) : Bool :=
  match s.aggregates "avg_roas" with
  | some roas => decide ((1 : ℚ) ≤ roas ∧ roas ≤ 2)
  | none => false

/-- Model of `_RoasOneToTwoRule.build_insight`. -/
def roas_build (s : MetricSummary) : Insight :=
  { code := "roas_1_2"
    label := "ROAS between 1 and 2"
    severity := "opportunity"
    action := "Test 2–3 new hooks/thumbnails; rotate in new ad creative; cap frequency if over-performing"
    rationale := "ROAS is in the modest 1–2 band, signalling room for incremental lift from creative testing and fatigue mitigation"
    metrics := [("avg_roas", .num ((s.aggregates "avg_roas").getD 0))] }

/-- Model of `_HealthyCtrWeakConversionRule.applies`:
`bool(ctr and ctr >= 0.015 and (atc_purchase is None or atc_purchase < 0.2))`. -/
def ctr_healthy_applies (s : MetricSummary) : Bool :=
  let ctr := s.aggregates "avg_ctr"
  let atc_purchase := s.aggregates "avg_atc_to_purchase"
  aggTruthy ctr && decide ((0.015 : ℚ) ≤ ctr.getD 0)
    && (match atc_purchase with
        | none => true
        | some a => decide (a < (0.2 : ℚ)))

/-- Model of `_HealthyCtrWeakConversionRule.build_insight`. -/
def ctr_healthy_build (s : MetricSummary) : Insight :=
  { code := "ctr_healthy_low_conversion"
    label := "CTR healthy, conversion weak"
    severity := "warning"
    action := "Audit landing and checkout flows; ensure offer-message match and remove friction"
    rationale := "Traffic is engaged (strong CTR) but shoppers are not completing purchases after adding to cart"
    metrics := [("avg_ctr", .num ((s.aggregates "avg_ctr").getD 0)),
                ("avg_atc_to_purchase", .num ((s.aggregates "avg_atc_to_purchase").getD 0))] }

/-- Model of `_HighFrequencyFatigueRule.applies`:
`bool(frequency and frequency >= 3.5)`. -/
def frequency_applies (s : MetricSummary) : Bool :=
  let frequency := s.aggregates "avg_frequency"
  aggTruthy frequency && decide ((3.5 : ℚ) ≤ frequency.getD 0)

/-- Model of `_HighFrequencyFatigueRule.build_insight`. -/
def frequency_build (s : MetricSummary) : Insight :=
  { code := "frequency_fatigue"
    label := "High frequency risk"
    severity := "warning"
    action := "Rotate fresh creative or expand audiences to lower frequency"
    rationale := "Average frequency is high, indicating audience saturation and performance decay risk"
    metrics := [("avg_frequency", .num ((s.aggregates "avg_frequency").getD 0))] }

/-- Model of `_CtrDropRule.applies`:
`bool(delta is not None and delta < -0.1)`. -/
def ctr_drop_applies (s : MetricSummary) : Bool :=
  match s.aggregates "avg_ctr_delta" with
  | some delta => decide (delta < (-0.1 : ℚ))
  | none => false

/-- Model of `_CtrDropRule.build_insight`. -/
def ctr_drop_build (s : MetricSummary) : Insight :=
  { code := "ctr_drop_vs_prev7"
    label := "CTR dropped vs previous 7 days"
    severity := "critical"
    action := "Investigate creative fatigue and audience overlap; run rapid creative refresh"
    rationale := "CTR declined more than 10% week-over-week, signalling creative engagement issues"
    metrics := [("avg_ctr_delta", .num ((s.aggregates "avg_ctr_delta").getD 0))] }

/-- Comparison `spend > 50` on a float. -/
def pfloatGtFifty : PFloat → Bool
  | .fin q => decide (50 < q)
  | .inf b => b
  | .nan => false

/-- Model of `spend and spend > 50` in `_SpendZeroPurchasesRule`.  A string
slot returns `false` here where CPython would raise `TypeError`
(`str > int`); rows produced by the deriver never store a string under
`spend` (it is a numeric field), and the theorems about this rule carry that
well-formedness hypothesis. -/
def spend_gt_check (v : Option PyVal) : Bool :=
  pyTruthy v &&
    (match v with
     | some (.pnum x) => pfloatGtFifty x
     | _ => false)

/-- Python `value == 0` on a row slot: true exactly for the finite float
zero (`None == 0`, `nan == 0`, `inf == 0` and string comparisons are all
`False`, without raising). -/
def pyEqZero (v : Option PyVal) : Bool :=
  match v with
  | some (.pnum (.fin q)) => decide (q = 0)
  | _ => false

/-- Model of `not purchases or purchases == 0` in `_SpendZeroPurchasesRule`. -/
def no_purchases_check (v : Option PyVal) : Bool :=
  !pyTruthy v || pyEqZero v

/-- The per-row offender condition of `_SpendZeroPurchasesRule`, shared by
`applies` and the offender comprehension of `build_insight` (both spell the
same conjunction). -/
def offender_cond (row : Row) : Bool :=
  spend_gt_check (row "spend") && no_purchases_check (row "purchases")

/-- Model of `_SpendZeroPurchasesRule.applies`. -/
def spend_no_purchases_applies (s : MetricSummary) : Bool :=
  s.per_row.any offender_cond

/-- One entry of the offender comprehension of
`_SpendZeroPurchasesRule.build_insight`. -/
def offender_entry (row : Row) : OffenderEntry :=
  { spend := (row "spend").getD (.pnum (.fin 0))
    purchases := (row "purchases").getD (.pnum (.fin 0))
    campaign_name := row "campaign_name"
    ad_name := row "ad_name" }

/-- Model of `_SpendZeroPurchasesRule.build_insight`. -/
def spend_no_purchases_build (s : MetricSummary) : Insight :=
  { code := "spend_no_purchases"
    label := "Spend with no purchases"
    severity := "critical"
    action := "Pause or fix underperforming ads with spend but zero purchases; audit funnel quickly"
    rationale := "Detected ads spending meaningful budget without returning purchases"
    metrics := [("offenders", .offenders ((s.per_row.filter offender_cond).map offender_entry))] }

/-- A rule of the engine: a stateless predicate plus insight builder
(`insight_rules.Rule` with its `RuleContext` collapsed to the summary it
wraps). -/
structure Rule where
  code : String
  label : String
  applies : MetricSummary → Bool
  build_insight : MetricSummary → Insight

/-- The fixed registration order of `RuleBasedInsightAgent.__init__` with no
extra rules. -/
def default_rules : List Rule :=
  [{ code := "roas_1_2", label := "ROAS between 1 and 2",
     applies := roas_applies, build_insight := roas_build },
   { code := "ctr_healthy_low_conversion", label := "CTR healthy, conversion weak",
     applies := ctr_healthy_applies, build_insight := ctr_healthy_build },
   { code := "frequency_fatigue", label := "High frequency risk",
     applies := frequency_applies, build_insight := frequency_build },
   { code := "ctr_drop_vs_prev7", label := "CTR dropped vs previous 7 days",
     applies := ctr_drop_applies, build_insight := ctr_drop_build },
   { code := "spend_no_purchases", label := "Spend with no purchases",
     applies := spend_no_purchases_applies, build_insight := spend_no_purchases_build }]

/-- Model of `RuleBasedInsightAgent.__call__`: walk the rules in
registration order, appending one insight per rule whose predicate holds. -/
def evaluate (s : MetricSummary) : List Insight :=
  default_rules.foldl
    (fun insights rule =>
      if rule.applies s then insights ++ [rule.build_insight s] else insights)
    []

/-- A raw input record: header-to-value pairs in insertion order, read via
first-match lookup (Python dictionaries cannot hold duplicate keys). -/
abbrev RawRecord : Type := List (String × PyVal)

/-- Model of `MetricCalculator.__call__`: derive each row, then aggregate. -/
def metric_calculator (records : List RawRecord) (m : ColumnMapping) : MetricSummary :=
  let per_row := records.map (fun r => derive_row (fun k => r.lookup k) m)
  { column_mapping := m, per_row := per_row, aggregates := aggregate per_row }

/-- Model of `InsightRequest._ensure_data`: an empty row sequence raises a
validation error before the pipeline runs. -/
def ensure_data (data : List RawRecord) : Except String (List RawRecord) :=
  if data.isEmpty then .error "At least one row of data is required" else .ok data

/-- The analytical result of one engine run (`InsightResponse` minus the
narrative, which is produced by the external LLM collaborator and is outside
the verified core). -/
structure EngineResponse where
  column_mapping : ColumnMapping
  insights : List Insight
  aggregates : String → Option ℚ
  insight_count : Nat

/-- The three pipeline stages of `InsightEngine` in graph order: column
identification from the first record's headers, metric calculation, rule
evaluation. -/
def pipeline_run (data : List RawRecord) (hints : List (String × String)) : EngineResponse :=
  let cols := (data.headD []).map Prod.fst
  let mapping := identify_columns cols hints
  let summary := metric_calculator data mapping
  let insights := evaluate summary
  { column_mapping := mapping, insights := insights,
    aggregates := summary.aggregates, insight_count := insights.length }

/-- Model of `InsightEngine.run` at the request boundary: the request is
validated first (`InsightRequest` construction runs `_ensure_data`), and
only a validated request enters the pipeline. -/
def run_engine (data : List RawRecord) (hints : List (String × String)) :
    Except String EngineResponse :=
  match ensure_data data with
  | .error e => .error e
  | .ok validated => .ok (pipeline_run validated hints)

/-! ### Definitions supporting the claim statements -/

/-- The numerically valid values contributed by the rows for one metric, in
row order: the trace of the `_is_valid_number`/`float` pair inside
`_aggregate`. -/
def valid_values (rows : List Row) (metric : String) : List ℚ :=
  rows.filterMap (fun row => validNum (row metric))

/-- Modelled from the claim's words (for the refutation of C3 only): strip a
single trailing `%` before parsing.  The source instead deletes every `%`
via `str.replace`. -/
def trailingPercentStripped (s : String) : String :=
  if s.data.getLast? = some '%' then ⟨s.data.dropLast⟩ else s

/-- Absence of two consecutive spaces. -/
def noDoubleSpace : List Char → Bool
  | [] => true
  | [_] => true
  | a :: b :: rest => !(a = ' ' && b = ' ') && noDoubleSpace (b :: rest)

/-- The normal form produced by `_normalize`: only lowercase alphanumerics
and spaces, no leading or trailing space, never two spaces in a row (so the
alphanumeric words are separated by single spaces). -/
def isNormalizedForm (l : List Char) : Bool :=
  l.all (fun c => isLowerAlnum c || c = ' ')
    && (match l.head? with | some c => decide (c ≠ ' ') | none => true)
    && (match l.getLast? with | some c => decide (c ≠ ' ') | none => true)
    && noDoubleSpace l

/-- The relaxed hint-matching rule actually implemented by
`_find_best_match` when called on a (normalized) hint, stated without the
re-normalization that idempotence of `_normalize` makes redundant: first
header whose normalized form equals the normalized hint or equals it after
deleting every space; failing that, first header whose normalized form
starts with the first token of the normalized hint. -/
def hint_match_spec (h : String) (cols : List String) : Option String :=
  match cols.find? (fun col =>
      normalize col == normalize h
      || stripSpaces (normalize col) == stripSpaces (normalize h)) with
  | some col => some col
  | none =>
    cols.find? (fun col =>
      (⟨((firstWord (normalize h).data).getD [])⟩ : String).isPrefixOf (normalize col))

/-- Numeric well-formedness of the two slots of a derived row that the
spend rule compares against numbers: the deriver always stores coerced
floats (or nothing) under the numeric fields, never strings, so the
`TypeError`-modelling branch of `spend_gt_check` is unreachable. -/
def row_wf (row : Row) : Bool :=
  (match row "spend" with | some (.pstr _) => false | _ => true)
    && (match row "purchases" with | some (.pstr _) => false | _ => true)

/-- The offending-row condition exactly as the claim states it: the spend
value is a number greater than fifty, and the purchases slot is absent (or
`None`) or holds the number zero. -/
def claim_offender (row : Row) : Prop :=
  (∃ x, row "spend" = some (.pnum x) ∧ pfloatGtFifty x = true) ∧
    (row "purchases" = none ∨ row "purchases" = some (.pnum (.fin 0)))

/-- Concrete row used by the witnesses: ctr missing, impressions zero,
previous-week ctr zero. -/
def wRowZero : Row := fun k =>
  if k = "impressions" then some (.pnum (.fin 0))
  else if k = "clicks" then some (.pnum (.fin 5))
  else if k = "ctr_prev7" then some (.pnum (.fin 0))
  else none

/-- Concrete offending row used by the witnesses: spend 80, purchases 0. -/
def wRowOffender : Row := fun k =>
  if k = "spend" then some (.pnum (.fin 80))
  else if k = "purchases" then some (.pnum (.fin 0))
  else if k = "campaign_name" then some (.pstr "Spring Drops")
  else if k = "ad_name" then some (.pstr "Creative B")
  else none

/-- Concrete summary used by the witnesses: one offending row, no
aggregates. -/
def wSummary : MetricSummary :=
  { column_mapping := {}, per_row := [wRowOffender], aggregates := fun _ => none }

/-- Concrete record used by the engine witness. -/
def wRecord : RawRecord := [("Spend", .pnum (.fin 60)), ("ROAS", .pnum (.fin (3/2)))]

/-- Concrete rows used by the C5 witness: spends 3 and 4, roas 1 and 2. -/
def wAggRow1 : Row := fun k =>
  if k = "spend" then some (.pnum (.fin 3))
  else if k = "roas" then some (.pnum (.fin 1)) else none

def wAggRow2 : Row := fun k =>
  if k = "spend" then some (.pnum (.fin 4))
  else if k = "roas" then some (.pnum (.fin 2)) else none

/-- Concrete one-column mapping used by the C3 witness. -/
def wMapSpend : ColumnMapping := { spend := some "Spend" }

/-- Concrete record used by the C3 witness: a percent-decorated string. -/
def wRecPercent : String → Option PyVal :=
  fun k => if k = "Spend" then some (.pstr "%50") else none

/-- Concrete summary whose only aggregate is `avg_roas = 1.5`. -/
def wSummaryRoas : MetricSummary :=
  { column_mapping := {}, per_row := [],
    aggregates := fun k => if k = "avg_roas" then some (3/2) else none }

/-! ### Bridging lemmas between the validity guard and the conversion -/

lemma is_valid_number_eq_isSome (v : Option PyVal) :
    is_valid_number v = (validNum v).isSome := by
  rcases v with _ | v
  · rfl
  rcases v with x | s
  · rcases x <;> rfl
  · simp only [is_valid_number, validNum]
    rcases h : pyParseFloat s with _ | x
    · rfl
    · rcases x <;> rfl

lemma pyToNum_of_validNum {v : Option PyVal} {q : ℚ} (h : validNum v = some q) :
    pyToNum v = .fin q := by
  rcases v with _ | v
  · simp [validNum] at h
  rcases v with x | s
  · rcases x with _ | b | r <;> simp_all [validNum, pyToNum]
  · simp only [validNum] at h
    rcases hp : pyParseFloat s with _ | x
    · simp [hp] at h
    · rcases x with _ | b | r <;> simp_all [pyToNum, hp]

lemma validNum_of_nan : validNum (some (.pnum .nan)) = none := rfl

/-! ### Structure of `evaluate` -/

lemma roas_build_code (s : MetricSummary) : (roas_build s).code = "roas_1_2" := rfl

lemma ctr_healthy_build_code (s : MetricSummary) :
    (ctr_healthy_build s).code = "ctr_healthy_low_conversion" := rfl

lemma frequency_build_code (s : MetricSummary) :
    (frequency_build s).code = "frequency_fatigue" := rfl

lemma ctr_drop_build_code (s : MetricSummary) :
    (ctr_drop_build s).code = "ctr_drop_vs_prev7" := rfl

lemma spend_build_code (s : MetricSummary) :
    (spend_no_purchases_build s).code = "spend_no_purchases" := rfl

/-- The rule walk produces the concatenation of one conditional singleton per
rule, in registration order. -/
lemma evaluate_eq (s : MetricSummary) :
    evaluate s =
      (if roas_applies s then [roas_build s] else []) ++
      (if ctr_healthy_applies s then [ctr_healthy_build s] else []) ++
      (if frequency_applies s then [frequency_build s] else []) ++
      (if ctr_drop_applies s then [ctr_drop_build s] else []) ++
      (if spend_no_purchases_applies s then [spend_no_purchases_build s] else []) := by
  simp only [evaluate, default_rules, List.foldl_cons, List.foldl_nil]
  cases roas_applies s <;> cases ctr_healthy_applies s <;> cases frequency_applies s <;>
    cases ctr_drop_applies s <;> cases spend_no_purchases_applies s <;> simp

lemma exists_mem_if_singleton (b : Bool) (x : Insight) (p : Insight → Prop) :
    (∃ i ∈ (if b then [x] else ([] : List Insight)), p i) ↔ (b = true ∧ p x) := by
  cases b <;> simp

lemma evaluate_mem_code_roas (s : MetricSummary) :
    (∃ i ∈ evaluate s, i.code = "roas_1_2") ↔ roas_applies s = true := by
  rw [evaluate_eq s]
  cases h1 : roas_applies s <;> cases h2 : ctr_healthy_applies s <;>
    cases h3 : frequency_applies s <;> cases h4 : ctr_drop_applies s <;>
    cases h5 : spend_no_purchases_applies s <;>
    simp [roas_build, ctr_healthy_build, frequency_build, ctr_drop_build,
      spend_no_purchases_build]

lemma evaluate_mem_code_spend (s : MetricSummary) :
    (∃ i ∈ evaluate s, i.code = "spend_no_purchases") ↔
      spend_no_purchases_applies s = true := by
  rw [evaluate_eq s]
  cases h1 : roas_applies s <;> cases h2 : ctr_healthy_applies s <;>
    cases h3 : frequency_applies s <;> cases h4 : ctr_drop_applies s <;>
    cases h5 : spend_no_purchases_applies s <;>
    simp [roas_build, ctr_healthy_build, frequency_build, ctr_drop_build,
      spend_no_purchases_build]

/-! ### Ratio and ctr computation lemmas -/

lemma is_valid_true_of_validNum {v : Option PyVal} {q : ℚ} (h : validNum v = some q) :
    is_valid_number v = true := by
  rw [is_valid_number_eq_isSome, h]; rfl

lemma is_valid_false_of_validNum {v : Option PyVal} (h : validNum v = none) :
    is_valid_number v = false := by
  rw [is_valid_number_eq_isSome, h]; rfl

lemma validNum_none_of_not_valid {v : Option PyVal} (h : is_valid_number v = false) :
    validNum v = none := by
  rw [is_valid_number_eq_isSome] at h
  exact Option.not_isSome_iff_eq_none.mp (by simp [h])

lemma validNum_of_valid {v : Option PyVal} (h : is_valid_number v = true) :
    ∃ q, validNum v = some q := by
  rw [is_valid_number_eq_isSome] at h
  exact Option.isSome_iff_exists.mp h

lemma compute_ctr_of_valid {metrics : Row} (h : is_valid_number (metrics "ctr") = true) :
    compute_ctr metrics = pyToNum (metrics "ctr") := by
  simp [compute_ctr, h]

lemma compute_ctr_of_fallback {metrics : Row} {qc qi : ℚ}
    (hctr : validNum (metrics "ctr") = none)
    (hc : validNum (metrics "clicks") = some qc)
    (hi : validNum (metrics "impressions") = some qi) (hiz : qi ≠ 0) :
    compute_ctr metrics = .fin (qc / qi) := by
  have h1 := is_valid_false_of_validNum hctr
  have h2 := is_valid_true_of_validNum hc
  have h3 := is_valid_true_of_validNum hi
  have h4 := pyToNum_of_validNum hc
  have h5 := pyToNum_of_validNum hi
  simp [compute_ctr, h1, h2, h3, h4, h5, hiz, pfDiv]

lemma compute_ctr_of_invalid {metrics : Row}
    (hctr : validNum (metrics "ctr") = none)
    (h : validNum (metrics "clicks") = none ∨ validNum (metrics "impressions") = none ∨
      validNum (metrics "impressions") = some 0) :
    compute_ctr metrics = .nan := by
  have h1 := is_valid_false_of_validNum hctr
  rcases h with h | h | h
  · simp [compute_ctr, h1, is_valid_false_of_validNum h]
  · simp [compute_ctr, h1, is_valid_false_of_validNum h]
  · cases hclk : is_valid_number (metrics "clicks") <;>
      simp [compute_ctr, h1, hclk, is_valid_true_of_validNum h, pyToNum_of_validNum h]

/-- C2, ratio part. -/
lemma compute_ratio_nan {numerator denominator : Option PyVal}
    (h : validNum denominator = some 0 ∨ numerator = some (.pnum .nan) ∨
      denominator = some (.pnum .nan)) :
    compute_ratio numerator denominator = .nan := by
  rcases h with h0 | hn | hd
  · have hv := is_valid_true_of_validNum h0
    have ht := pyToNum_of_validNum h0
    cases hnum : is_valid_number numerator <;> simp [compute_ratio, hnum, hv, ht]
  · subst hn; simp [compute_ratio, is_valid_number]
  · subst hd; simp [compute_ratio, is_valid_number]

/-- C2, ctr-delta part. -/
lemma compute_ctr_delta_nan {metrics : Row}
    (h : validNum (metrics "ctr_prev7") = some 0 ∨
      metrics "ctr_prev7" = some (.pnum .nan) ∨
      (validNum (metrics "ctr_7d") = none ∧ validNum (metrics "ctr") = none)) :
    compute_ctr_delta metrics = .nan := by
  rcases h with h0 | hp | ⟨h7, hc⟩
  · have hv := is_valid_true_of_validNum h0
    have ht := pyToNum_of_validNum h0
    cases hcur : is_valid_number
        (if is_valid_number (metrics "ctr_7d") then metrics "ctr_7d" else metrics "ctr") <;>
      simp [compute_ctr_delta, hcur, hv, ht]
  · have hv : is_valid_number (metrics "ctr_prev7") = false := by
      rw [hp]; rfl
    simp [compute_ctr_delta, hv]
  · have h7v := is_valid_false_of_validNum h7
    have hcv := is_valid_false_of_validNum hc
    simp [compute_ctr_delta, h7v, hcv]

/-! ### Structure of `derive_base` and `derive_row` -/

lemma base_step_ne (record : String → Option PyVal) (m : ColumnMapping) (row : Row)
    {c k : String} (hck : c ≠ k) : base_step record m row c k = row k := by
  unfold base_step
  cases m.resolve c with
  | none => rfl
  | some col =>
    have : k ≠ c := fun h => hck h.symm
    split <;> simp [rowInsert, this]

lemma base_fold_ne (record : String → Option PyVal) (m : ColumnMapping) {k : String} :
    ∀ (ms : List String) (row : Row), (∀ c ∈ ms, c ≠ k) →
      (ms.foldl (base_step record m) row) k = row k := by
  intro ms
  induction ms with
  | nil => intro row _; rfl
  | cons a tl ih =>
    intro row h
    simp only [List.foldl_cons]
    rw [ih _ (fun c hc => h c (List.mem_cons_of_mem a hc)),
      base_step_ne record m row (h a (List.mem_cons_self a tl))]

lemma base_fold_mem (record : String → Option PyVal) (m : ColumnMapping)
    {c col : String} (hr : m.resolve c = some col) :
    ∀ (ms : List String) (row : Row), ms.Nodup → c ∈ ms →
      (ms.foldl (base_step record m) row) c =
        (if numeric_fields.contains c then some (.pnum (to_float (record col)))
         else record col) := by
  intro ms
  induction ms with
  | nil => intro row _ hmem; simp at hmem
  | cons a tl ih =>
    intro row hnd hmem
    simp only [List.foldl_cons]
    rcases List.mem_cons.mp hmem with hca | hctl
    · subst hca
      have hnota : ∀ x ∈ tl, x ≠ c := fun x hx he =>
        (List.nodup_cons.mp hnd).1 (he ▸ hx)
      rw [base_fold_ne record m tl _ hnota]
      unfold base_step
      rw [hr]
      split <;> simp [rowInsert]
    · exact ih _ (List.nodup_cons.mp hnd).2 hctl

lemma canonical_names_nodup : (CANONICAL_COLUMNS.map Prod.fst).Nodup := by decide

lemma available_metrics_nodup (m : ColumnMapping) : m.available_metrics.Nodup :=
  canonical_names_nodup.filter _

lemma available_resolve {m : ColumnMapping} {c : String} (h : c ∈ m.available_metrics) :
    ∃ col, m.resolve c = some col ∧ col ≠ "" := by
  unfold ColumnMapping.available_metrics at h
  have hp := (List.mem_filter.mp h).2
  cases hr : m.resolve c with
  | none => rw [hr] at hp; simp at hp
  | some col =>
    rw [hr] at hp
    exact ⟨col, rfl, by simpa using hp⟩

lemma not_available_of_resolve_none {m : ColumnMapping} {c : String}
    (h : m.resolve c = none) : c ∉ m.available_metrics := by
  intro hmem
  rcases available_resolve hmem with ⟨col, hcol, _⟩
  rw [h] at hcol
  exact Option.noConfusion hcol

lemma derive_base_eq (record : String → Option PyVal) (m : ColumnMapping)
    {c col : String} (hmem : c ∈ m.available_metrics) (hr : m.resolve c = some col) :
    derive_base record m c =
      (if numeric_fields.contains c then some (.pnum (to_float (record col)))
       else record col) :=
  base_fold_mem record m hr _ _ (available_metrics_nodup m) hmem

lemma derive_base_not_available (record : String → Option PyVal) (m : ColumnMapping)
    {c : String} (h : c ∉ m.available_metrics) : derive_base record m c = none :=
  base_fold_ne record m _ _ (fun x hx he => h (he ▸ hx))

lemma derive_row_ctr (record : String → Option PyVal) (m : ColumnMapping) :
    (derive_row record m) "ctr" =
      some (.pnum (compute_ctr (derive_base record m))) := by
  simp [derive_row, rowInsert]

/-! ### Claim theorems -/

/-- C2: for every pair given to a ratio computation of the Metric Deriver
(`_compute_ratio`, the clicks/impressions fallback of `_compute_ctr`, and
`_compute_ctr_delta`), if the denominator is zero or an operand is the
not-a-number sentinel (more generally, numerically invalid), the result is
the not-a-number sentinel — in particular never an infinity; the
computations are total functions of the model, mirroring that the source
never raises there. -/
theorem C2_ratio_nan_propagation :
    ∀ (numerator denominator : Option PyVal) (metrics : Row),
      ((validNum denominator = some 0 ∨ numerator = some (.pnum .nan) ∨
          denominator = some (.pnum .nan)) →
        compute_ratio numerator denominator = .nan ∧
          ∀ b, compute_ratio numerator denominator ≠ .inf b) ∧
      (validNum (metrics "ctr") = none →
        (validNum (metrics "impressions") = some 0 ∨
          metrics "clicks" = some (.pnum .nan) ∨
          metrics "impressions" = some (.pnum .nan)) →
        compute_ctr metrics = .nan ∧ ∀ b, compute_ctr metrics ≠ .inf b) ∧
      ((validNum (metrics "ctr_prev7") = some 0 ∨
          metrics "ctr_prev7" = some (.pnum .nan) ∨
          (validNum (metrics "ctr_7d") = none ∧ validNum (metrics "ctr") = none)) →
        compute_ctr_delta metrics = .nan ∧ ∀ b, compute_ctr_delta metrics ≠ .inf b) := by
  intro numerator denominator metrics
  refine ⟨fun h => ?_, fun hctr h => ?_, fun h => ?_⟩
  · have he := compute_ratio_nan h
    exact ⟨he, fun b => by rw [he]; exact fun hc => PFloat.noConfusion hc⟩
  · have he : compute_ctr metrics = .nan := by
      rcases h with h | h | h
      · exact compute_ctr_of_invalid hctr (Or.inr (Or.inr h))
      · exact compute_ctr_of_invalid hctr (Or.inl (by rw [h]; rfl))
      · exact compute_ctr_of_invalid hctr (Or.inr (Or.inl (by rw [h]; rfl)))
    exact ⟨he, fun b => by rw [he]; exact fun hc => PFloat.noConfusion hc⟩
  · have he := compute_ctr_delta_nan h
    exact ⟨he, fun b => by rw [he]; exact fun hc => PFloat.noConfusion hc⟩

/-- Witness for C2 at concrete inputs: 3 divided by a zero denominator, and
the concrete row with zero impressions, missing ctr and zero previous-week
ctr. -/
theorem C2_witness :
    (validNum (some (.pnum (.fin 0)) : Option PyVal) = some 0 ∧
      compute_ratio (some (.pnum (.fin 3))) (some (.pnum (.fin 0))) = .nan) ∧
    (validNum (wRowZero "ctr") = none ∧ validNum (wRowZero "impressions") = some 0 ∧
      compute_ctr wRowZero = .nan) ∧
    (validNum (wRowZero "ctr_prev7") = some 0 ∧ compute_ctr_delta wRowZero = .nan) := by
  refine ⟨⟨by with_unfolding_all decide, ?_⟩,
    ⟨by with_unfolding_all decide, by with_unfolding_all decide, ?_⟩,
    ⟨by with_unfolding_all decide, ?_⟩⟩
  · exact (C2_ratio_nan_propagation (some (.pnum (.fin 3))) (some (.pnum (.fin 0)))
      wRowZero).1 (Or.inl (by with_unfolding_all decide)) |>.1
  · exact ((C2_ratio_nan_propagation none none wRowZero).2.1
      (by with_unfolding_all decide)
      (Or.inl (by with_unfolding_all decide))).1
  · exact ((C2_ratio_nan_propagation none none wRowZero).2.2
      (Or.inl (by with_unfolding_all decide))).1

/-- C4: the synthetic `ctr` equals the coerced `ctr` column value when that
value is numerically valid; otherwise `clicks / impressions` when both are
valid and impressions is nonzero; otherwise the not-a-number sentinel.  In
particular, for a row with valid positive impressions and valid clicks the
synthetic `ctr` is present (the deriver always stores it) and finite, and
equals exactly `clicks / impressions` when no column resolved for `ctr`. -/
theorem C4_ctr_synthesis :
    ∀ (metrics : Row) (record : String → Option PyVal) (m : ColumnMapping),
      (is_valid_number (metrics "ctr") = true →
        compute_ctr metrics = pyToNum (metrics "ctr")) ∧
      (∀ qc qi : ℚ, validNum (metrics "ctr") = none →
        validNum (metrics "clicks") = some qc →
        validNum (metrics "impressions") = some qi → qi ≠ 0 →
        compute_ctr metrics = .fin (qc / qi)) ∧
      (validNum (metrics "ctr") = none →
        (validNum (metrics "clicks") = none ∨ validNum (metrics "impressions") = none ∨
          validNum (metrics "impressions") = some 0) →
        compute_ctr metrics = .nan) ∧
      (∀ qc qi : ℚ, validNum (metrics "clicks") = some qc →
        validNum (metrics "impressions") = some qi → 0 < qi →
        ∃ q : ℚ, compute_ctr metrics = .fin q) ∧
      ((derive_row record m) "ctr" =
        some (.pnum (compute_ctr (derive_base record m)))) ∧
      (∀ qc qi : ℚ, m.ctr = none →
        validNum ((derive_base record m) "clicks") = some qc →
        validNum ((derive_base record m) "impressions") = some qi → qi ≠ 0 →
        compute_ctr (derive_base record m) = .fin (qc / qi)) := by
  intro metrics record m
  refine ⟨compute_ctr_of_valid, fun qc qi => compute_ctr_of_fallback,
    compute_ctr_of_invalid, fun qc qi hc hi hpos => ?_, derive_row_ctr record m,
    fun qc qi hctr hc hi hiz => ?_⟩
  · cases hv : is_valid_number (metrics "ctr") with
    | true =>
      rcases validNum_of_valid hv with ⟨q, hq⟩
      exact ⟨q, by rw [compute_ctr_of_valid hv, pyToNum_of_validNum hq]⟩
    | false =>
      exact ⟨qc / qi, compute_ctr_of_fallback (validNum_none_of_not_valid hv) hc hi
        (ne_of_gt hpos)⟩
  · have hna : "ctr" ∉ m.available_metrics :=
      not_available_of_resolve_none (show m.resolve "ctr" = none from hctr)
    have hnone : (derive_base record m) "ctr" = none :=
      derive_base_not_available record m hna
    exact compute_ctr_of_fallback (by rw [hnone]; rfl) hc hi hiz

/-- Witness for C4: a mapping with no ctr column and a record with 5 clicks
out of 2 impressions; the synthetic ctr is the finite quotient 5/2. -/
theorem C4_witness :
    ({ impressions := some "Impressions", clicks := some "Clicks"} : ColumnMapping).ctr
        = none ∧
      validNum ((derive_base (fun k => ([("Impressions", PyVal.pnum (.fin 2)),
        ("Clicks", PyVal.pnum (.fin 5))].lookup k))
          { impressions := some "Impressions", clicks := some "Clicks" }) "clicks")
        = some 5 ∧
      validNum ((derive_base (fun k => ([("Impressions", PyVal.pnum (.fin 2)),
        ("Clicks", PyVal.pnum (.fin 5))].lookup k))
          { impressions := some "Impressions", clicks := some "Clicks" }) "impressions")
        = some 2 ∧
      compute_ctr (derive_base (fun k => ([("Impressions", PyVal.pnum (.fin 2)),
        ("Clicks", PyVal.pnum (.fin 5))].lookup k))
          { impressions := some "Impressions", clicks := some "Clicks" })
        = .fin (5 / 2) := by
  refine ⟨rfl, by with_unfolding_all decide, by with_unfolding_all decide, ?_⟩
  exact (C4_ctr_synthesis (fun _ => none) _ _).2.2.2.2.2 5 2 rfl
    (by with_unfolding_all decide) (by with_unfolding_all decide)
    (by with_unfolding_all decide)

/-- C9: an empty row sequence is rejected by the request validation before
any pipeline stage runs, with the `_ensure_data` error message; a non-empty
sequence passes validation and the full pipeline output is produced. -/
theorem C9_empty_data_rejected :
    ∀ (data : List RawRecord) (hints : List (String × String)),
      (run_engine [] hints = .error "At least one row of data is required") ∧
      (data ≠ [] → run_engine data hints = .ok (pipeline_run data hints)) := by
  intro data hints
  constructor
  · rfl
  · intro h
    cases data with
    | nil => exact absurd rfl h
    | cons r rest => rfl

/-- Witness for C9: a one-record dataset passes validation and runs the
pipeline. -/
theorem C9_witness :
    [wRecord] ≠ [] ∧
      run_engine [wRecord] [] = .ok (pipeline_run [wRecord] []) := by
  refine ⟨by decide, (C9_empty_data_rejected [wRecord] []).2 (by decide)⟩

/-- C6: the `roas_1_2` rule contributes its finding exactly when the
aggregate `avg_roas` is present and lies in the closed interval from 1 to 2;
an absent `avg_roas` makes the predicate false (the evaluation is a total
function, mirroring that the source never raises there). -/
theorem C6_roas_rule :
    ∀ s : MetricSummary,
      ((∃ i ∈ evaluate s, i.code = "roas_1_2") ↔
        (∃ roas : ℚ, s.aggregates "avg_roas" = some roas ∧ 1 ≤ roas ∧ roas ≤ 2)) ∧
      (s.aggregates "avg_roas" = none → roas_applies s = false) := by
  intro s
  constructor
  · rw [evaluate_mem_code_roas s]
    unfold roas_applies
    cases h : s.aggregates "avg_roas" with
    | none => simp [h]
    | some roas => simp [h]
  · intro h
    unfold roas_applies
    rw [h]

/-- Witness for C6: a summary with no aggregates at all leaves the roas
predicate false, and a summary with `avg_roas = 1.5` fires the rule. -/
theorem C6_witness :
    roas_applies wSummary = false ∧
      (∃ i ∈ evaluate wSummaryRoas, i.code = "roas_1_2") := by
  constructor
  · exact (C6_roas_rule wSummary).2 rfl
  · exact (C6_roas_rule wSummaryRoas).1.mpr ⟨3/2, rfl, by norm_num, by norm_num⟩

lemma spend_gt_check_num (x : PFloat) :
    spend_gt_check (some (.pnum x)) = pfloatGtFifty x := by
  cases x with
  | nan => rfl
  | inf b => rfl
  | fin q =>
    show (decide (q ≠ 0) && decide (50 < q)) = decide (50 < q)
    by_cases h : 50 < q
    · have : q ≠ 0 := ne_of_gt (lt_trans (by norm_num) h)
      simp [h, this]
    · simp [h]

lemma no_purchases_check_num {v : Option PyVal}
    (hstr : ∀ str, v ≠ some (.pstr str)) :
    no_purchases_check v = true ↔ (v = none ∨ v = some (.pnum (.fin 0))) := by
  cases v with
  | none => simp [no_purchases_check, pyTruthy]
  | some w =>
    cases w with
    | pstr str => exact absurd rfl (hstr str)
    | pnum x =>
      cases x with
      | nan => simp [no_purchases_check, pyTruthy, pyEqZero]
      | inf b => simp [no_purchases_check, pyTruthy, pyEqZero]
      | fin q =>
        by_cases h : q = 0 <;> simp [no_purchases_check, pyTruthy, pyEqZero, h]

lemma offender_cond_iff {row : Row}
    (hs : ∀ str, row "spend" ≠ some (.pstr str))
    (hp : ∀ str, row "purchases" ≠ some (.pstr str)) :
    offender_cond row = true ↔ claim_offender row := by
  unfold offender_cond claim_offender
  cases hsv : row "spend" with
  | none => simp [spend_gt_check, pyTruthy]
  | some v =>
    cases v with
    | pstr str => exact absurd hsv (hs str)
    | pnum x =>
      rw [spend_gt_check_num, Bool.and_eq_true, no_purchases_check_num hp]
      constructor
      · rintro ⟨h1, h2⟩
        exact ⟨⟨x, rfl, h1⟩, h2⟩
      · rintro ⟨⟨y, hy, h1⟩, h2⟩
        obtain rfl : x = y := by
          have := Option.some.inj hy
          exact PyVal.pnum.inj this
        exact ⟨h1, h2⟩

/-- C7: the engine returns the findings in the fixed registration order
`roas_1_2`, `ctr_healthy_low_conversion`, `frequency_fatigue`,
`ctr_drop_vs_prev7`, `spend_no_purchases`: the output is the concatenation
of one conditional finding per rule in that order, its code sequence is a
subsequence of the fixed code order, each rule contributes exactly one
finding when its predicate holds and none otherwise, and the output depends
only on the summary content (so re-evaluating an identical summary yields
the identical ordered list; the embedding of the stateless rules is a pure
function). -/
theorem C7_fixed_order :
    ∀ s t : MetricSummary,
      (evaluate s =
        (if roas_applies s then [roas_build s] else []) ++
        (if ctr_healthy_applies s then [ctr_healthy_build s] else []) ++
        (if frequency_applies s then [frequency_build s] else []) ++
        (if ctr_drop_applies s then [ctr_drop_build s] else []) ++
        (if spend_no_purchases_applies s then [spend_no_purchases_build s] else [])) ∧
      ((evaluate s).map Insight.code).Sublist
        ["roas_1_2", "ctr_healthy_low_conversion", "frequency_fatigue",
         "ctr_drop_vs_prev7", "spend_no_purchases"] ∧
      (∀ r ∈ default_rules,
        ((evaluate s).filter (fun i => i.code == r.code)).length =
          if r.applies s then 1 else 0) ∧
      (s.per_row = t.per_row → s.aggregates = t.aggregates → evaluate s = evaluate t) := by
  intro s t
  refine ⟨evaluate_eq s, ?_, ?_, ?_⟩
  · rw [evaluate_eq s]
    cases roas_applies s <;> cases ctr_healthy_applies s <;>
      cases frequency_applies s <;> cases ctr_drop_applies s <;>
      cases spend_no_purchases_applies s <;>
      simp [roas_build, ctr_healthy_build, frequency_build, ctr_drop_build,
        spend_no_purchases_build] <;> decide
  · intro r hr
    fin_cases hr <;>
      rw [evaluate_eq s] <;>
      cases h1 : roas_applies s <;> cases h2 : ctr_healthy_applies s <;>
      cases h3 : frequency_applies s <;> cases h4 : ctr_drop_applies s <;>
      cases h5 : spend_no_purchases_applies s <;>
      simp_all [roas_build, ctr_healthy_build, frequency_build, ctr_drop_build,
        spend_no_purchases_build]
  · intro hp ha
    cases s; cases t
    cases hp; cases ha
    rfl

/-- Witness for C7: on the concrete summary with one offending row and no
aggregates, exactly the spend rule fires, in last position, and the first
rule of the registry contributes zero findings. -/
theorem C7_witness :
    "roas_1_2" ∈ (default_rules.map Rule.code) ∧
      ((evaluate wSummary).map Insight.code).Sublist
        ["roas_1_2", "ctr_healthy_low_conversion", "frequency_fatigue",
         "ctr_drop_vs_prev7", "spend_no_purchases"] := by
  refine ⟨by decide, (C7_fixed_order wSummary wSummary).2.1⟩

/-- C1: the engine emits a `spend_no_purchases` finding (severity critical
in its builder) iff some derived row has a numeric spend greater than 50
together with purchases absent or equal to 0; rows whose numeric slots come
from the deriver (no strings under `spend`/`purchases`) satisfy the
condition exactly as the claim states it, and the finding's metrics list
the spend, purchases, campaign_name and ad_name values of every offending
row. -/
theorem C1_spend_no_purchases :
    ∀ s : MetricSummary, (∀ row ∈ s.per_row, row_wf row = true) →
      (∀ row ∈ s.per_row, (offender_cond row = true ↔ claim_offender row)) ∧
      ((∃ i ∈ evaluate s, i.code = "spend_no_purchases") ↔
        ∃ row ∈ s.per_row, claim_offender row) ∧
      (∀ i ∈ evaluate s, i.code = "spend_no_purchases" →
        i.metrics = [("offenders",
          .offenders ((s.per_row.filter offender_cond).map offender_entry))]) := by
  intro s hwf
  have hpoint : ∀ row ∈ s.per_row, (offender_cond row = true ↔ claim_offender row) := by
    intro row hrow
    have hw := hwf row hrow
    unfold row_wf at hw
    rcases Bool.and_eq_true_iff.mp hw with ⟨hw1, hw2⟩
    have hs : ∀ str, row "spend" ≠ some (.pstr str) := by
      intro str he; rw [he] at hw1; simp at hw1
    have hp : ∀ str, row "purchases" ≠ some (.pstr str) := by
      intro str he; rw [he] at hw2; simp at hw2
    exact offender_cond_iff hs hp
  refine ⟨hpoint, ?_, ?_⟩
  · rw [evaluate_mem_code_spend s]
    unfold spend_no_purchases_applies
    rw [List.any_eq_true]
    constructor
    · rintro ⟨row, hrow, hc⟩
      exact ⟨row, hrow, (hpoint row hrow).mp hc⟩
    · rintro ⟨row, hrow, hc⟩
      exact ⟨row, hrow, (hpoint row hrow).mpr hc⟩
  · intro i hi hc
    rw [evaluate_eq s] at hi
    simp only [List.append_assoc, List.mem_append] at hi
    rcases hi with hi | hi | hi | hi | hi
    · revert hi; cases roas_applies s <;> simp <;> rintro rfl <;> simp [roas_build] at hc
    · revert hi; cases ctr_healthy_applies s <;> simp <;> rintro rfl <;>
        simp [ctr_healthy_build] at hc
    · revert hi; cases frequency_applies s <;> simp <;> rintro rfl <;>
        simp [frequency_build] at hc
    · revert hi; cases ctr_drop_applies s <;> simp <;> rintro rfl <;>
        simp [ctr_drop_build] at hc
    · revert hi; cases spend_no_purchases_applies s <;> simp <;> rintro rfl
      rfl

/-- Witness for C1: the concrete summary whose single row spends 80 with
zero purchases makes the finding appear. -/
theorem C1_witness :
    (∀ row ∈ wSummary.per_row, row_wf row = true) ∧
      (∃ i ∈ evaluate wSummary, i.code = "spend_no_purchases") := by
  have hwf : ∀ row ∈ wSummary.per_row, row_wf row = true := by
    intro row hrow
    rcases List.mem_singleton.mp hrow with rfl
    with_unfolding_all decide
  refine ⟨hwf, (C1_spend_no_purchases wSummary hwf).2.1.mpr ?_⟩
  refine ⟨wRowOffender, List.mem_singleton.mpr rfl, ⟨.fin 80, rfl, ?_⟩, Or.inr rfl⟩
  with_unfolding_all decide

/-- C3 counterexample: the claim says a string is parsed after stripping a
trailing `%`, which leaves `"%50"` unchanged and unparseable (so the claim
predicts the not-a-number sentinel); the source deletes every `%`
(`value.replace("%", "")`), so `_to_float` returns 50. -/
theorem C3_counterexample :
    to_float (some (.pstr "%50")) = .fin 50 ∧
      trailingPercentStripped "%50" = "%50" ∧
      pyParseFloat (trailingPercentStripped "%50") = none := by
  refine ⟨by with_unfolding_all decide, by with_unfolding_all decide,
    by with_unfolding_all decide⟩

/-- C3 (amended): for every mapped canonical metric of a row, the per-row
derivation coerces the raw value as follows when the metric is one of the
eleven designated numeric fields: a numeric value passes through, a string
is parsed to a float after removing every `%` character (a string that then
fails to parse yields the not-a-number sentinel), and any other value
(including null) yields the not-a-number sentinel; canonical metrics
outside the numeric set pass through unmodified. -/
theorem C3_numeric_coercion :
    ∀ (record : String → Option PyVal) (m : ColumnMapping) (c col : String),
      (c ∈ m.available_metrics → m.resolve c = some col →
        (c ∈ numeric_fields →
          derive_base record m c = some (.pnum (to_float (record col)))) ∧
        (c ∉ numeric_fields → derive_base record m c = record col)) ∧
      (∀ x, to_float (some (.pnum x)) = x) ∧
      (∀ str, to_float (some (.pstr str)) = (pyParseFloat (remPercent str)).getD .nan) ∧
      to_float none = .nan := by
  intro record m c col
  refine ⟨fun hmem hr => ⟨fun hc => ?_, fun hc => ?_⟩, fun x => rfl, fun str => rfl, rfl⟩
  · rw [derive_base_eq record m hmem hr, if_pos (by simpa using hc)]
  · rw [derive_base_eq record m hmem hr, if_neg (by simpa using hc)]

/-- Witness for C3: the spend column holds the string `"%50"`; the deriver
stores the coerced value 50 (every `%` removed before parsing). -/
theorem C3_witness :
    "spend" ∈ wMapSpend.available_metrics ∧ wMapSpend.resolve "spend" = some "Spend" ∧
      "spend" ∈ numeric_fields ∧
      derive_base wRecPercent wMapSpend "spend" = some (.pnum (.fin 50)) := by
  refine ⟨by decide, rfl, by decide, ?_⟩
  refine (((C3_numeric_coercion wRecPercent wMapSpend "spend" "Spend").1
    (by decide) rfl).1 (by decide)).trans ?_
  with_unfolding_all decide

/-! ### Structure of `aggregate` -/

lemma str_append_right_cancel {p a b : String} (h : p ++ a = p ++ b) : a = b := by
  rcases p with ⟨pl⟩; rcases a with ⟨al⟩; rcases b with ⟨bl⟩
  have h2 : pl ++ al = pl ++ bl := congrArg String.data h
  exact congrArg String.mk (List.append_cancel_left h2)

lemma total_key_ne {f g : String} (hne : f ≠ g) :
    ("total_" ++ f) ≠ ("total_" ++ g) :=
  fun h => hne (str_append_right_cancel h)

lemma avg_key_ne {f g : String} (hne : f ≠ g) :
    ("avg_" ++ f) ≠ ("avg_" ++ g) :=
  fun h => hne (str_append_right_cancel h)

lemma total_ne_avg {f g : String} (hf : f ∈ total_fields) (hg : g ∈ avg_fields) :
    ("total_" ++ f) ≠ ("avg_" ++ g) := by
  fin_cases hf <;> fin_cases hg <;> decide

lemma total_step_preserve {row : Row} {sums : String → Option ℚ} {metric k : String}
    (h : ("total_" ++ metric) ≠ k) : total_step row sums metric k = sums k := by
  have hk : k ≠ ("total_" ++ metric) := fun he => h he.symm
  unfold total_step
  cases validNum (row metric) with
  | none => rfl
  | some q => simp [dictInsert, hk]

lemma total_step_self {row : Row} {sums : String → Option ℚ} {metric : String} :
    total_step row sums metric ("total_" ++ metric) =
      (match validNum (row metric) with
       | some q => some ((sums ("total_" ++ metric)).getD 0 + q)
       | none => sums ("total_" ++ metric)) := by
  unfold total_step
  cases validNum (row metric) with
  | none => rfl
  | some q => simp [dictInsert]

lemma total_fold_preserve {row : Row} {k : String} :
    ∀ (ms : List String) (sums : String → Option ℚ),
      (∀ m ∈ ms, ("total_" ++ m) ≠ k) →
      (ms.foldl (total_step row) sums) k = sums k := by
  intro ms
  induction ms with
  | nil => intro sums _; rfl
  | cons a tl ih =>
    intro sums h
    simp only [List.foldl_cons]
    rw [ih _ (fun m hm => h m (List.mem_cons_of_mem a hm)),
      total_step_preserve (h a (List.mem_cons_self a tl))]

lemma total_fold_mem {row : Row} {f : String} :
    ∀ (ms : List String) (sums : String → Option ℚ), ms.Nodup → f ∈ ms →
      (ms.foldl (total_step row) sums) ("total_" ++ f) =
        (match validNum (row f) with
         | some q => some ((sums ("total_" ++ f)).getD 0 + q)
         | none => sums ("total_" ++ f)) := by
  intro ms
  induction ms with
  | nil => intro sums _ hmem; simp at hmem
  | cons a tl ih =>
    intro sums hnd hmem
    simp only [List.foldl_cons]
    rcases List.mem_cons.mp hmem with hfa | hftl
    · subst hfa
      have hne : ∀ m ∈ tl, ("total_" ++ m) ≠ ("total_" ++ f) := by
        intro m hm
        refine total_key_ne (fun he => (List.nodup_cons.mp hnd).1 ?_)
        rw [he] at hm
        exact hm
      rw [total_fold_preserve tl _ hne, total_step_self]
    · have hne : ("total_" ++ a) ≠ ("total_" ++ f) := by
        refine total_key_ne (fun he => (List.nodup_cons.mp hnd).1 ?_)
        rw [he]
        exact hftl
      rw [ih _ (List.nodup_cons.mp hnd).2 hftl]
      rw [total_step_preserve hne]

lemma avg_step_preserve {row : Row} {st : AggState} {metric k : String}
    (h : ("avg_" ++ metric) ≠ k) :
    (avg_step row st metric).sums k = st.sums k ∧
      (avg_step row st metric).counts k = st.counts k := by
  unfold avg_step
  cases validNum (row metric) with
  | none => exact ⟨rfl, rfl⟩
  | some q =>
    have hk : k ≠ ("avg_" ++ metric) := fun he => h he.symm
    constructor <;> simp [dictInsert, countInc, hk]

lemma avg_step_self {row : Row} {st : AggState} {metric : String} :
    (avg_step row st metric).sums ("avg_" ++ metric) =
      (match validNum (row metric) with
       | some q => some ((st.sums ("avg_" ++ metric)).getD 0 + q)
       | none => st.sums ("avg_" ++ metric)) ∧
    (avg_step row st metric).counts ("avg_" ++ metric) =
      st.counts ("avg_" ++ metric) +
        (if (validNum (row metric)).isSome then 1 else 0) := by
  unfold avg_step
  cases validNum (row metric) with
  | none => exact ⟨rfl, rfl⟩
  | some q => constructor <;> simp [dictInsert, countInc]

lemma avg_fold_preserve {row : Row} {k : String} :
    ∀ (ms : List String) (st : AggState),
      (∀ m ∈ ms, ("avg_" ++ m) ≠ k) →
      (ms.foldl (avg_step row) st).sums k = st.sums k ∧
        (ms.foldl (avg_step row) st).counts k = st.counts k := by
  intro ms
  induction ms with
  | nil => intro st _; exact ⟨rfl, rfl⟩
  | cons a tl ih =>
    intro st h
    simp only [List.foldl_cons]
    obtain ⟨ih1, ih2⟩ := ih (avg_step row st a) (fun m hm => h m (List.mem_cons_of_mem a hm))
    obtain ⟨hp1, hp2⟩ := @avg_step_preserve row st a k (h a (List.mem_cons_self a tl))
    exact ⟨ih1.trans hp1, ih2.trans hp2⟩

lemma avg_fold_mem {row : Row} {g : String} :
    ∀ (ms : List String) (st : AggState), ms.Nodup → g ∈ ms →
      (ms.foldl (avg_step row) st).sums ("avg_" ++ g) =
        (match validNum (row g) with
         | some q => some ((st.sums ("avg_" ++ g)).getD 0 + q)
         | none => st.sums ("avg_" ++ g)) ∧
      (ms.foldl (avg_step row) st).counts ("avg_" ++ g) =
        st.counts ("avg_" ++ g) + (if (validNum (row g)).isSome then 1 else 0) := by
  intro ms
  induction ms with
  | nil => intro st _ hmem; simp at hmem
  | cons a tl ih =>
    intro st hnd hmem
    simp only [List.foldl_cons]
    rcases List.mem_cons.mp hmem with hga | hgtl
    · subst hga
      have hne : ∀ m ∈ tl, ("avg_" ++ m) ≠ ("avg_" ++ g) := by
        intro m hm
        refine avg_key_ne (fun he => (List.nodup_cons.mp hnd).1 ?_)
        rw [he] at hm
        exact hm
      obtain ⟨hL1, hL2⟩ := avg_fold_preserve tl (avg_step row st g) hne
      obtain ⟨hS1, hS2⟩ := @avg_step_self row st g
      exact ⟨hL1.trans hS1, hL2.trans hS2⟩
    · have hane : ("avg_" ++ a) ≠ ("avg_" ++ g) := by
        refine avg_key_ne (fun he => (List.nodup_cons.mp hnd).1 ?_)
        rw [he]
        exact hgtl
      obtain ⟨hI1, hI2⟩ := ih (avg_step row st a) (List.nodup_cons.mp hnd).2 hgtl
      obtain ⟨hP1, hP2⟩ := @avg_step_preserve row st a ("avg_" ++ g) hane
      rw [hP1] at hI1
      rw [hP2] at hI2
      exact ⟨hI1, hI2⟩

lemma total_fields_nodup : total_fields.Nodup := by decide

lemma avg_fields_nodup : avg_fields.Nodup := by decide

lemma row_step_total {f : String} (hf : f ∈ total_fields) (st : AggState) (row : Row) :
    ((row_step st row).sums ("total_" ++ f) =
      (match validNum (row f) with
       | some q => some ((st.sums ("total_" ++ f)).getD 0 + q)
       | none => st.sums ("total_" ++ f))) ∧
    (row_step st row).counts ("total_" ++ f) = st.counts ("total_" ++ f) := by
  unfold row_step
  have havg : ∀ m ∈ avg_fields, ("avg_" ++ m) ≠ ("total_" ++ f) :=
    fun m hm => (total_ne_avg hf hm).symm
  obtain ⟨hp1, hp2⟩ := avg_fold_preserve avg_fields
    ⟨total_fields.foldl (total_step row) st.sums, st.counts⟩ havg
  refine ⟨hp1.trans ?_, hp2⟩
  exact total_fold_mem total_fields st.sums total_fields_nodup hf

lemma row_step_avg {g : String} (hg : g ∈ avg_fields) (st : AggState) (row : Row) :
    ((row_step st row).sums ("avg_" ++ g) =
      (match validNum (row g) with
       | some q => some ((st.sums ("avg_" ++ g)).getD 0 + q)
       | none => st.sums ("avg_" ++ g))) ∧
    (row_step st row).counts ("avg_" ++ g) =
      st.counts ("avg_" ++ g) + (if (validNum (row g)).isSome then 1 else 0) := by
  unfold row_step
  have htot : (total_fields.foldl (total_step row) st.sums) ("avg_" ++ g) =
      st.sums ("avg_" ++ g) :=
    total_fold_preserve total_fields st.sums (fun m hm => total_ne_avg hm hg)
  obtain ⟨hm1, hm2⟩ := @avg_fold_mem row g avg_fields
    ⟨total_fields.foldl (total_step row) st.sums, st.counts⟩ avg_fields_nodup hg
  rw [show (⟨total_fields.foldl (total_step row) st.sums, st.counts⟩ : AggState).sums
      = total_fields.foldl (total_step row) st.sums from rfl, htot] at hm1
  exact ⟨hm1, hm2⟩

lemma rows_fold_total {f : String} (hf : f ∈ total_fields) :
    ∀ (rows : List Row) (st : AggState),
      ((rows.foldl row_step st).sums ("total_" ++ f) =
        (if valid_values rows f = [] then st.sums ("total_" ++ f)
         else some ((st.sums ("total_" ++ f)).getD 0 + (valid_values rows f).sum))) ∧
      (rows.foldl row_step st).counts ("total_" ++ f) = st.counts ("total_" ++ f) := by
  intro rows
  induction rows with
  | nil => intro st; simp [valid_values]
  | cons r rest ih =>
    intro st
    simp only [List.foldl_cons]
    obtain ⟨ih1, ih2⟩ := ih (row_step st r)
    obtain ⟨hs1, hs2⟩ := row_step_total hf st r
    refine ⟨?_, ih2.trans hs2⟩
    rw [ih1, hs1]
    cases hv : validNum (r f) with
    | none => simp only [valid_values, List.filterMap_cons, hv]
    | some q =>
      simp only [valid_values, List.filterMap_cons, hv]
      cases hrest : rest.filterMap (fun row => validNum (row f)) with
      | nil => simp
      | cons x xs => simp [add_assoc]

lemma rows_fold_avg {g : String} (hg : g ∈ avg_fields) :
    ∀ (rows : List Row) (st : AggState),
      ((rows.foldl row_step st).sums ("avg_" ++ g) =
        (if valid_values rows g = [] then st.sums ("avg_" ++ g)
         else some ((st.sums ("avg_" ++ g)).getD 0 + (valid_values rows g).sum))) ∧
      (rows.foldl row_step st).counts ("avg_" ++ g) =
        st.counts ("avg_" ++ g) + (valid_values rows g).length := by
  intro rows
  induction rows with
  | nil => intro st; simp [valid_values]
  | cons r rest ih =>
    intro st
    simp only [List.foldl_cons]
    obtain ⟨ih1, ih2⟩ := ih (row_step st r)
    obtain ⟨hs1, hs2⟩ := row_step_avg hg st r
    constructor
    · rw [ih1, hs1]
      cases hv : validNum (r g) with
      | none => simp only [valid_values, List.filterMap_cons, hv]
      | some q =>
        simp only [valid_values, List.filterMap_cons, hv]
        cases hrest : rest.filterMap (fun row => validNum (row g)) with
        | nil => simp
        | cons x xs => simp [add_assoc]
    · rw [ih2, hs2]
      cases hv : validNum (r g) with
      | none =>
        simp only [valid_values, List.filterMap_cons, hv, Option.isSome_none]
        simp
      | some q =>
        simp [valid_values, List.filterMap_cons, hv]
        ring

/-- C5: for every sequence of derived rows, the aggregate summary maps
`total_<f>` (for each of the six total fields) to the sum of the
numerically valid values of `f` across rows, and `avg_<g>` (for each of the
seven average fields) to their arithmetic mean; a key is absent entirely
when no row contributes a valid value, so the mean never divides by a zero
count. -/
theorem C5_aggregation :
    ∀ rows : List Row,
      (∀ f ∈ total_fields,
        aggregate rows ("total_" ++ f) =
          (if valid_values rows f = [] then none
           else some ((valid_values rows f).sum))) ∧
      (∀ g ∈ avg_fields,
        aggregate rows ("avg_" ++ g) =
          (if valid_values rows g = [] then none
           else some ((valid_values rows g).sum / ((valid_values rows g).length : ℚ)))) := by
  intro rows
  constructor
  · intro f hf
    obtain ⟨h1, h2⟩ := rows_fold_total hf rows ⟨fun _ => none, fun _ => 0⟩
    have h2' : (rows.foldl row_step ⟨fun _ => none, fun _ => 0⟩).counts ("total_" ++ f)
        = 0 := h2
    simp only [aggregate]
    rw [h2', h1]
    cases hv : valid_values rows f with
    | nil => simp
    | cons x xs => simp
  · intro g hg
    obtain ⟨h1, h2⟩ := rows_fold_avg hg rows ⟨fun _ => none, fun _ => 0⟩
    have h2' : (rows.foldl row_step ⟨fun _ => none, fun _ => 0⟩).counts ("avg_" ++ g)
        = (valid_values rows g).length := by simpa using h2
    simp only [aggregate]
    rw [h2', h1]
    cases hv : valid_values rows g with
    | nil => simp
    | cons x xs =>
      have hlen : (x :: xs).length = xs.length + 1 := rfl
      simp only [hlen]
      simp [zero_add]
      try push_cast
      try ring_nf

/-- Witness for C5: two rows with spends 3 and 4 and roas 1 and 2 give
`total_spend = 7` and `avg_roas = 3/2`. -/
theorem C5_witness :
    "spend" ∈ total_fields ∧ "roas" ∈ avg_fields ∧
      aggregate [wAggRow1, wAggRow2] ("total_" ++ "spend") = some 7 ∧
      aggregate [wAggRow1, wAggRow2] ("avg_" ++ "roas") = some (3 / 2) := by
  refine ⟨by decide, by decide, ?_, ?_⟩
  · exact ((C5_aggregation [wAggRow1, wAggRow2]).1 "spend" (by decide)).trans
      (by with_unfolding_all decide)
  · exact ((C5_aggregation [wAggRow1, wAggRow2]).2 "roas" (by decide)).trans
      (by with_unfolding_all decide)

/-! ### Structure of `_normalize` -/

lemma okChar_lower {c : Char} (h : (isLowerAlnum c || c = ' ') = true) :
    pyLowerChar c = c := by
  unfold pyLowerChar
  cases hb : ((65 ≤ c.toNat && c.toNat ≤ 90) : Bool) with
  | false => simp [hb]
  | true =>
    exfalso
    simp only [Bool.and_eq_true, decide_eq_true_eq] at hb
    rcases Bool.or_eq_true_iff.mp h with h1 | h1
    · simp only [isLowerAlnum, Bool.or_eq_true, Bool.and_eq_true, decide_eq_true_eq] at h1
      omega
    · have : c = ' ' := by simpa using h1
      subst this
      simp at hb

lemma okChar_not_ws {c : Char} (h : isLowerAlnum c = true) : isPyWs c = false := by
  cases hb : isPyWs c with
  | false => rfl
  | true =>
    exfalso
    simp only [isPyWs, Bool.or_eq_true, decide_eq_true_eq] at hb
    simp only [isLowerAlnum, Bool.or_eq_true, Bool.and_eq_true, decide_eq_true_eq] at h
    omega

lemma okChar_toSpace_fix {c : Char} (h : (isLowerAlnum c || c = ' ') = true) :
    (if isLowerAlnum c then c else ' ') = c := by
  rcases Bool.or_eq_true_iff.mp h with h1 | h1
  · simp [h1]
  · have : c = ' ' := by simpa using h1
    subst this
    simp

lemma okChar_wsMap_fix {c : Char} (h : (isLowerAlnum c || c = ' ') = true) :
    (if isPyWs c then ' ' else c) = c := by
  rcases Bool.or_eq_true_iff.mp h with h1 | h1
  · simp [okChar_not_ws h1]
  · have : c = ' ' := by simpa using h1
    subst this
    simp [isPyWs]

lemma map_fix {f : Char → Char} : ∀ l : List Char, (∀ c ∈ l, f c = c) → l.map f = l := by
  intro l
  induction l with
  | nil => intro _; rfl
  | cons a tl ih =>
    intro h
    simp only [List.map_cons]
    rw [h a (List.mem_cons_self a tl), ih (fun c hc => h c (List.mem_cons_of_mem a hc))]

lemma collapse_subset : ∀ l : List Char, ∀ c ∈ collapse l, c ∈ l := by
  intro l
  induction l with
  | nil => intro c hc; exact hc
  | cons a tl ih =>
    intro c hc
    cases tl with
    | nil => exact hc
    | cons b rest =>
      rw [collapse] at hc
      split at hc
      · exact List.mem_cons_of_mem a (ih c hc)
      · rcases List.mem_cons.mp hc with rfl | hc2
        · exact List.mem_cons_self c _
        · exact List.mem_cons_of_mem a (ih c hc2)

lemma collapse_head? : ∀ l : List Char, (collapse l).head? = l.head? := by
  intro l
  induction l with
  | nil => rfl
  | cons a tl ih =>
    cases tl with
    | nil => rfl
    | cons b rest =>
      by_cases hab : (a = ' ' && b = ' ') = true
      · rw [collapse, if_pos hab, ih]
        rcases Bool.and_eq_true_iff.mp hab with ⟨ha, hb⟩
        have ha' : a = ' ' := by simpa using ha
        have hb' : b = ' ' := by simpa using hb
        simp [ha', hb']
      · rw [collapse, if_neg hab]
        rfl

lemma noDouble_tail {a : Char} {l : List Char}
    (h : noDoubleSpace (a :: l) = true) : noDoubleSpace l = true := by
  cases l with
  | nil => rfl
  | cons b rest => exact (Bool.and_eq_true_iff.mp h).2

lemma collapse_noDouble : ∀ l : List Char, noDoubleSpace (collapse l) = true := by
  intro l
  induction l with
  | nil => rfl
  | cons a tl ih =>
    cases tl with
    | nil => rfl
    | cons b rest =>
      by_cases hab : (a = ' ' && b = ' ') = true
      · rw [collapse, if_pos hab]
        exact ih
      · rw [collapse, if_neg hab]
        cases hcb : collapse (b :: rest) with
        | nil => rfl
        | cons x xs =>
          have hx : x = b := by
            have := collapse_head? (b :: rest)
            rw [hcb] at this
            simpa using this
          subst hx
          rw [noDoubleSpace]
          refine Bool.and_eq_true_iff.mpr ⟨?_, by rw [← hcb]; exact ih⟩
          simp only [Bool.not_eq_true']
          simp only [Bool.and_eq_true, decide_eq_true_eq] at hab ⊢
          rcases Decidable.em (a = ' ') with ha | ha
          · simp [ha] at hab ⊢
            exact hab
          · simp [ha]

lemma collapse_fix : ∀ l : List Char, noDoubleSpace l = true → collapse l = l := by
  intro l
  induction l with
  | nil => intro _; rfl
  | cons a tl ih =>
    intro h
    cases tl with
    | nil => rfl
    | cons b rest =>
      obtain ⟨h1, h2⟩ := Bool.and_eq_true_iff.mp h
      rw [collapse, if_neg (fun hc => by rw [hc] at h1; simp at h1), ih h2]

lemma dropWhile_head_not {p : Char → Bool} :
    ∀ {l : List Char} {a : Char}, (l.dropWhile p).head? = some a → p a = false := by
  intro l
  induction l with
  | nil => intro a ha; simp at ha
  | cons x xs ih =>
    intro a ha
    rw [List.dropWhile_cons] at ha
    split at ha
    · exact ih ha
    · next hpx =>
      have : x = a := by simpa using ha
      subst this
      simpa using hpx

lemma stripBy_head_not {p : Char → Bool} {l : List Char} {a : Char}
    (h : (stripBy p l).head? = some a) : p a = false := by
  unfold stripBy at h
  rw [List.head?_reverse] at h
  have hne : (l.dropWhile p).reverse.dropWhile p ≠ [] := by
    intro he
    rw [he] at h
    simp at h
  obtain ⟨t, ht⟩ := List.dropWhile_suffix (l := (l.dropWhile p).reverse) (p := p)
  have h2 : ((l.dropWhile p).reverse).getLast? = some a := by
    rw [← ht, List.getLast?_append_of_ne_nil t hne]
    exact h
  rw [List.getLast?_reverse] at h2
  exact dropWhile_head_not h2

lemma stripBy_last_not {p : Char → Bool} {l : List Char} {a : Char}
    (h : (stripBy p l).getLast? = some a) : p a = false := by
  unfold stripBy at h
  rw [List.getLast?_reverse] at h
  exact dropWhile_head_not h

lemma mem_stripBy {p : Char → Bool} {l : List Char} {c : Char}
    (h : c ∈ stripBy p l) : c ∈ l := by
  unfold stripBy at h
  rw [List.mem_reverse] at h
  have h2 := (List.dropWhile_suffix (l := (l.dropWhile p).reverse) (p := p)).subset h
  rw [List.mem_reverse] at h2
  exact (List.dropWhile_suffix (l := l) (p := p)).subset h2

lemma noDouble_chain : ∀ l : List Char,
    noDoubleSpace l = true ↔ l.Chain' (fun a b => ¬(a = ' ' ∧ b = ' ')) := by
  intro l
  induction l with
  | nil => simp [noDoubleSpace]
  | cons a tl ih =>
    cases tl with
    | nil => simp [noDoubleSpace]
    | cons b rest =>
      rw [noDoubleSpace, List.chain'_cons, Bool.and_eq_true_iff, ih]
      constructor
      · rintro ⟨h1, h2⟩
        refine ⟨?_, h2⟩
        simp only [Bool.not_eq_true', Bool.and_eq_false_iff, decide_eq_false_iff_not] at h1
        tauto
      · rintro ⟨h1, h2⟩
        refine ⟨?_, h2⟩
        simp only [Bool.not_eq_true', Bool.and_eq_false_iff, decide_eq_false_iff_not]
        tauto

lemma noDouble_of_suffix {l s : List Char} (hs : s <:+ l)
    (h : noDoubleSpace l = true) : noDoubleSpace s = true := by
  obtain ⟨t, rfl⟩ := hs
  induction t with
  | nil => exact h
  | cons a t' ih =>
    exact ih (noDouble_tail h)

lemma noDouble_reverse {l : List Char} (h : noDoubleSpace l = true) :
    noDoubleSpace l.reverse = true := by
  rw [noDouble_chain] at h ⊢
  rw [List.chain'_reverse]
  exact h.imp (fun a b hab => fun hba => hab ⟨hba.2, hba.1⟩)

lemma noDouble_stripBy {p : Char → Bool} {l : List Char}
    (h : noDoubleSpace l = true) : noDoubleSpace (stripBy p l) = true := by
  unfold stripBy
  exact noDouble_reverse (noDouble_of_suffix (List.dropWhile_suffix p)
    (noDouble_reverse (noDouble_of_suffix (List.dropWhile_suffix p) h)))

lemma all_ok_map_toSpace (l : List Char) :
    (l.map (fun c => if isLowerAlnum c then c else ' ')).all
      (fun c => isLowerAlnum c || c = ' ') = true := by
  rw [List.all_eq_true]
  intro c hc
  rw [List.mem_map] at hc
  obtain ⟨d, _, rfl⟩ := hc
  by_cases hd : isLowerAlnum d = true <;> simp [hd]

lemma all_ok_preserved_collapse {l : List Char}
    (h : l.all (fun c => isLowerAlnum c || c = ' ') = true) :
    (collapse l).all (fun c => isLowerAlnum c || c = ' ') = true := by
  rw [List.all_eq_true] at h ⊢
  exact fun c hc => h c (collapse_subset l c hc)

lemma all_ok_preserved_strip {p : Char → Bool} {l : List Char}
    (h : l.all (fun c => isLowerAlnum c || c = ' ') = true) :
    (stripBy p l).all (fun c => isLowerAlnum c || c = ' ') = true := by
  rw [List.all_eq_true] at h ⊢
  exact fun c hc => h c (mem_stripBy hc)

lemma all_ok_map_ws {l : List Char}
    (h : l.all (fun c => isLowerAlnum c || c = ' ') = true) :
    (l.map (fun c => if isPyWs c then ' ' else c)) =
      l := by
  rw [List.all_eq_true] at h
  exact map_fix l (fun c hc => okChar_wsMap_fix (h c hc))

/-- The output of `normalizeL` is in normal form: only lowercase
alphanumerics and single separating spaces, no leading or trailing space. -/
lemma normalizeL_normalized (l : List Char) :
    isNormalizedForm (normalizeL l) = true := by
  unfold normalizeL isNormalizedForm
  generalize ((stripBy isPyWs l).map pyLowerChar) = base
  generalize hp1 :
    collapse (base.map (fun c => if isLowerAlnum c then c else ' ')) = pass1
  have hok1 : pass1.all (fun c => isLowerAlnum c || c = ' ') = true := by
    rw [← hp1]
    exact all_ok_preserved_collapse (all_ok_map_toSpace base)
  have hnd1 : noDoubleSpace pass1 = true := by
    rw [← hp1]
    exact collapse_noDouble _
  rw [all_ok_map_ws hok1, collapse_fix _ hnd1]
  have hokOut : (stripBy isPyWs pass1).all (fun c => isLowerAlnum c || c = ' ') = true :=
    all_ok_preserved_strip hok1
  have hndOut : noDoubleSpace (stripBy isPyWs pass1) = true := noDouble_stripBy hnd1
  have hhead : (match (stripBy isPyWs pass1).head? with
      | some c => decide (c ≠ ' ')
      | none => true) = true := by
    cases hh : (stripBy isPyWs pass1).head? with
    | none => rfl
    | some c =>
      have := stripBy_head_not hh
      simp only [isPyWs] at this
      simp only [decide_eq_true_eq]
      intro he
      subst he
      simp at this
  have hlast : (match (stripBy isPyWs pass1).getLast? with
      | some c => decide (c ≠ ' ')
      | none => true) = true := by
    cases hh : (stripBy isPyWs pass1).getLast? with
    | none => rfl
    | some c =>
      have := stripBy_last_not hh
      simp only [isPyWs] at this
      simp only [decide_eq_true_eq]
      intro he
      subst he
      simp at this
  rw [hokOut, hhead, hlast, hndOut]
  rfl

lemma dropWhile_fix {p : Char → Bool} :
    ∀ l : List Char, (∀ a, l.head? = some a → p a = false) → l.dropWhile p = l := by
  intro l h
  cases l with
  | nil => rfl
  | cons x xs =>
    rw [List.dropWhile_cons, if_neg (by simp [h x rfl])]

lemma stripBy_fix {l : List Char}
    (hh : ∀ a, l.head? = some a → isPyWs a = false)
    (hl : ∀ a, l.getLast? = some a → isPyWs a = false) :
    stripBy isPyWs l = l := by
  unfold stripBy
  rw [dropWhile_fix l hh, dropWhile_fix l.reverse
    (fun a ha => hl a (by rwa [List.head?_reverse] at ha)), List.reverse_reverse]

/-- A list already in normal form is a fixed point of `normalizeL`. -/
lemma normalizeL_fix {l : List Char} (h : isNormalizedForm l = true) :
    normalizeL l = l := by
  unfold isNormalizedForm at h
  obtain ⟨h3, hnd⟩ := Bool.and_eq_true_iff.mp h
  obtain ⟨h2, hlast⟩ := Bool.and_eq_true_iff.mp h3
  obtain ⟨hok, hhead⟩ := Bool.and_eq_true_iff.mp h2
  have hokc : ∀ c ∈ l, (isLowerAlnum c || c = ' ') = true := List.all_eq_true.mp hok
  have halnum : ∀ c ∈ l, c ≠ ' ' → isLowerAlnum c = true := by
    intro c hc hne
    rcases Bool.or_eq_true_iff.mp (hokc c hc) with h1 | h1
    · exact h1
    · exact absurd (by simpa using h1) hne
  have hh : ∀ a, l.head? = some a → isPyWs a = false := by
    intro a ha
    have hmem : a ∈ l := by
      cases l with
      | nil => simp at ha
      | cons x xs =>
        have : x = a := by simpa using ha
        subst this
        exact List.mem_cons_self x xs
    rw [ha] at hhead
    have hne : a ≠ ' ' := by simpa using hhead
    exact okChar_not_ws (halnum a hmem hne)
  have hl : ∀ a, l.getLast? = some a → isPyWs a = false := by
    intro a ha
    have hmem : a ∈ l := by
      obtain ⟨hne, he⟩ := List.mem_getLast?_eq_getLast (show a ∈ l.getLast? from ha)
      rw [he]
      exact List.getLast_mem hne
    rw [ha] at hlast
    have hne : a ≠ ' ' := by simpa using hlast
    exact okChar_not_ws (halnum a hmem hne)
  have hA : stripBy isPyWs l = l := stripBy_fix hh hl
  have hB : l.map pyLowerChar = l := map_fix l (fun c hc => okChar_lower (hokc c hc))
  have hC : l.map (fun c => if isLowerAlnum c then c else ' ') = l :=
    map_fix l (fun c hc => okChar_toSpace_fix (hokc c hc))
  have hD : collapse l = l := collapse_fix l hnd
  have hE : l.map (fun c => if isPyWs c then ' ' else c) = l := all_ok_map_ws hok
  unfold normalizeL
  rw [hA, hB, hC, hD, hE, hD, hA]

/-- Idempotence of `_normalize` at the string level. -/
lemma normalize_idem (s : String) : normalize (normalize s) = normalize s := by
  unfold normalize
  exact congrArg String.mk (normalizeL_fix (normalizeL_normalized s.data))

lemma mem_of_head? {l : List Char} {a : Char} (h : l.head? = some a) : a ∈ l := by
  cases l with
  | nil => simp at h
  | cons x xs =>
    have : x = a := by simpa using h
    subst this
    exact List.mem_cons_self x xs

lemma noDouble_of_no_space : ∀ l : List Char, (∀ c ∈ l, c ≠ ' ') →
    noDoubleSpace l = true := by
  intro l
  induction l with
  | nil => intro _; rfl
  | cons a tl ih =>
    intro h
    cases tl with
    | nil => rfl
    | cons b rest =>
      rw [noDoubleSpace]
      refine Bool.and_eq_true_iff.mpr ⟨?_, ih (fun c hc => h c (List.mem_cons_of_mem a hc))⟩
      have ha := h a (List.mem_cons_self a _)
      simp [ha]

lemma find?_congr {p q : String → Bool} (hpq : ∀ x, p x = q x) :
    ∀ l : List String, l.find? p = l.find? q := by
  intro l
  induction l with
  | nil => rfl
  | cons a tl ih =>
    rw [List.find?_cons, List.find?_cons, hpq a, ih]

lemma normalized_head_not_ws {l : List Char} (h : isNormalizedForm l = true) :
    ∀ a, l.head? = some a → isPyWs a = false := by
  unfold isNormalizedForm at h
  obtain ⟨h3, _⟩ := Bool.and_eq_true_iff.mp h
  obtain ⟨h2, _⟩ := Bool.and_eq_true_iff.mp h3
  obtain ⟨hok, hhead⟩ := Bool.and_eq_true_iff.mp h2
  intro a ha
  have hmem : a ∈ l := by
    cases l with
    | nil => simp at ha
    | cons x xs =>
      have : x = a := by simpa using ha
      subst this
      exact List.mem_cons_self x xs
  rw [ha] at hhead
  have hne : a ≠ ' ' := by simpa using hhead
  rcases Bool.or_eq_true_iff.mp (List.all_eq_true.mp hok a hmem) with h1 | h1
  · exact okChar_not_ws h1
  · exact absurd (by simpa using h1) hne

/-- For a nonempty normalized string the first whitespace token exists, is
itself normalized, and is therefore a fixed point of `_normalize`. -/
lemma normalized_firstWord {s : String} (hne : normalize s ≠ "") :
    ∃ tok, firstWord (normalize s).data = some tok ∧
      normalize ⟨tok⟩ = (⟨tok⟩ : String) := by
  have hform : isNormalizedForm (normalize s).data = true := normalizeL_normalized s.data
  have hd : (normalize s).data ≠ [] := by
    intro he
    exact hne (String.ext he)
  have hdrop : (normalize s).data.dropWhile isPyWs = (normalize s).data :=
    dropWhile_fix _ (normalized_head_not_ws hform)
  refine ⟨(normalize s).data.takeWhile (fun c => !isPyWs c), ?_, ?_⟩
  · unfold firstWord
    rw [hdrop, if_neg (by simpa using hd)]
  · set tok := (normalize s).data.takeWhile (fun c => !isPyWs c) with htok
    have hsub : ∀ c ∈ tok, c ∈ (normalize s).data :=
      fun c hc => (List.takeWhile_prefix _).subset hc
    have halnum : ∀ c ∈ tok, isLowerAlnum c = true := by
      intro c hc
      have hnws : isPyWs c = false := by
        have := List.mem_takeWhile_imp hc
        simpa using this
      have hok : (isLowerAlnum c || c = ' ') = true := by
        unfold isNormalizedForm at hform
        obtain ⟨h3, _⟩ := Bool.and_eq_true_iff.mp hform
        obtain ⟨h2, _⟩ := Bool.and_eq_true_iff.mp h3
        obtain ⟨hokl, _⟩ := Bool.and_eq_true_iff.mp h2
        exact List.all_eq_true.mp hokl c (hsub c hc)
      rcases Bool.or_eq_true_iff.mp hok with h1 | h1
      · exact h1
      · exfalso
        have : c = ' ' := by simpa using h1
        subst this
        simp [isPyWs] at hnws
    have hnsp : ∀ c ∈ tok, c ≠ ' ' := by
      intro c hc he
      subst he
      have := halnum _ hc
      simp [isLowerAlnum] at this
    have hform2 : isNormalizedForm tok = true := by
      unfold isNormalizedForm
      refine Bool.and_eq_true_iff.mpr ⟨Bool.and_eq_true_iff.mpr
        ⟨Bool.and_eq_true_iff.mpr ⟨?_, ?_⟩, ?_⟩, noDouble_of_no_space tok hnsp⟩
      · exact List.all_eq_true.mpr (fun c hc => by simp [halnum c hc])
      · cases hh : tok.head? with
        | none => rfl
        | some c =>
          have hmem : c ∈ tok := mem_of_head? hh
          simpa using hnsp c hmem
      · cases hh : tok.getLast? with
        | none => rfl
        | some c =>
          have hmem : c ∈ tok := by
            obtain ⟨hne2, he⟩ := List.mem_getLast?_eq_getLast
              (show c ∈ tok.getLast? from hh)
            rw [he]
            exact List.getLast_mem hne2
          simpa using hnsp c hmem
    show (⟨normalizeL tok⟩ : String) = ⟨tok⟩
    rw [normalizeL_fix hform2]

/-- C10: `_normalize` is a total function of the model (every string has a
value), idempotent — normalizing an already-normalized string returns it
unchanged — and its output is in normal form: only lowercase alphanumeric
characters and single separating spaces (no two adjacent), with no leading
or trailing space, and hence, by the character-set clause, no whitespace at
either end. -/
theorem C10_normalize_idempotent :
    ∀ s : String,
      normalize (normalize s) = normalize s ∧
      isNormalizedForm (normalize s).data = true := by
  intro s
  exact ⟨normalize_idem s, normalizeL_normalized s.data⟩

/-- C8 counterexample: headers `["totalspend"]` with hint `"total spend"`
for `spend`.  The hint does not name a header verbatim, no header's
normalized form equals the normalized hint, and synonym matching alone
leaves `spend` unmapped — so the claim predicts an unmapped metric — yet
the resolver maps `spend` to `"totalspend"` through the hint's
space-stripped relaxed match inside `_find_best_match`. -/
theorem C8_counterexample :
    (["totalspend"].all (fun col => !(normalize col == normalize "total spend"))) = true ∧
      (["totalspend"].contains "total spend") = false ∧
      auto_match "spend" ["spend", "cost"] ["totalspend"] = none ∧
      (identify_columns ["totalspend"] [("spend", "total spend")]).spend
        = some "totalspend" := by
  refine ⟨by with_unfolding_all decide, by with_unfolding_all decide,
    by with_unfolding_all decide, by with_unfolding_all decide⟩

/-- C8 (amended): for a canonical metric whose hint does not name a header
verbatim (and whose normalized hint is nonempty — an all-punctuation hint
makes CPython raise `IndexError` in `_find_best_match`), hint-based
resolution applies `_find_best_match`, which equals the three-tier rule
`hint_match_spec`: the first header (in caller-supplied order) whose
normalized form equals the normalized hint or equals it after deleting
every space, else the first header whose normalized form starts with the
first token of the normalized hint; only when all three tiers fail (or the
matched header is the falsy empty string) does resolution fall through to
synonym matching. -/
theorem C8_hint_resolution :
    ∀ (cols : List String) (hints : List (String × String))
      (canonical : String) (synonyms : List String) (h : String),
      hints.lookup canonical = some h →
      cols.contains h = false →
      normalize h ≠ "" →
      (find_best_match (normalize h) cols none = hint_match_spec h cols) ∧
      (resolve_one hints cols canonical synonyms =
        (match hint_match_spec h cols with
         | some target =>
           if target = "" then auto_match canonical synonyms cols else some target
         | none => auto_match canonical synonyms cols)) := by
  intro cols hints canonical synonyms h hlook hcont hne
  have hfbm : find_best_match (normalize h) cols none = hint_match_spec h cols := by
    obtain ⟨tok, htok, hfix⟩ := normalized_firstWord hne
    simp only [find_best_match, hint_match_spec, htok, normalize_idem, hfix,
      Option.getD_some]
    have hpred1 : ∀ col : String,
        (([normalize h].contains (normalize col))
          || ((List.map stripSpaces [normalize h]).contains
                (stripSpaces (normalize col))))
        = (normalize col == normalize h
            || stripSpaces (normalize col) == stripSpaces (normalize h)) := by
      intro col
      by_cases h1 : normalize col = normalize h <;>
        by_cases h2 : stripSpaces (normalize col) = stripSpaces (normalize h) <;>
        simp [h1, h2, List.contains_cons, Ne.symm]
    rw [find?_congr hpred1 cols]
  refine ⟨hfbm, ?_⟩
  unfold resolve_one
  rw [hlook]
  simp only [hcont, Bool.false_eq_true, if_false, hfbm]

/-- Witness for C8: the hint `"Spend USD!"` does not name the header
`"spend usd"` verbatim but matches it after normalization, so `spend`
resolves to that header through the relaxed hint match. -/
theorem C8_witness :
    ([("spend", "Spend USD!")].lookup "spend" = some "Spend USD!") ∧
      (["spend usd"].contains "Spend USD!") = false ∧
      normalize "Spend USD!" ≠ "" ∧
      resolve_one [("spend", "Spend USD!")] ["spend usd"] "spend" ["spend", "cost"]
        = some "spend usd" := by
  refine ⟨by with_unfolding_all decide, by with_unfolding_all decide,
    by with_unfolding_all decide, ?_⟩
  refine ((C8_hint_resolution ["spend usd"] [("spend", "Spend USD!")] "spend"
    ["spend", "cost"] "Spend USD!" (by with_unfolding_all decide)
    (by with_unfolding_all decide) (by with_unfolding_all decide)).2).trans ?_
  with_unfolding_all decide

end InsightAgent
